import Mathlib

/-! Portfolio scripts: a verification development.

Shallow embedding of the decision logic of `scripts/main.js`, `scripts/particles.js`,
`scripts/theme.js` and `scripts/animations.js`.

Conventions of the embedding:

* a JavaScript string is a list of Unicode scalar values (`String` / `List Char`); its
  `.length` is the number of UTF-16 code units (`jsLength`);
* a JavaScript number is an exact rational (`ℚ`) or integer (`ℤ`); `NaN` results of
  `parseInt` are `none`;
* browser state that the code reads (storage, viewport, time stamps, random draws,
  intersection entries) is passed in explicitly, and the state the code writes is returned.
-/

/-! ## JavaScript primitives -/

namespace JS

/-- ECMAScript `WhiteSpace` and `LineTerminator` code points: the characters removed by
`String.prototype.trim` and matched by the regular-expression class `\s`. -/
def isJsWhiteSpace (c : Char) : Bool :=
  let n := c.toNat
  n == 0x09 || n == 0x0A || n == 0x0B || n == 0x0C || n == 0x0D || n == 0x20 ||
  n == 0xA0 || n == 0x1680 || (0x2000 ≤ n && n ≤ 0x200A) || n == 0x2028 ||
  n == 0x2029 || n == 0x202F || n == 0x205F || n == 0x3000 || n == 0xFEFF

/-- `String.prototype.trim`: strip white space from both ends. -/
def jsTrim (s : List Char) : List Char :=
  ((s.dropWhile isJsWhiteSpace).reverse.dropWhile isJsWhiteSpace).reverse

/-- The `.length` of a string: its number of UTF-16 code units (a character outside the
basic plane counts twice). -/
def jsLength : List Char → Nat
  | [] => 0
  | c :: s => (if c.toNat < 0x10000 then 1 else 2) + jsLength s

/-- Truthiness of a value that is `undefined` (`none`) or a string: only a non-empty string
is truthy. -/
def jsTruthy : Option String → Bool
  | none => false
  | some s => !s.data.isEmpty

end JS

namespace Portfolio

open JS

/-! ## The email pattern `/^[^\s@]+@[^\s@]+\.[^\s@]+$/` -/

/-- One item of an anchored pattern: a single character of a class, or one-or-more
characters of a class (`+`). -/
inductive PatItem where
  | one (p : Char → Bool)
  | plus (p : Char → Bool)

/-- Anchored matching (`^ ... $`) of a sequence of items against a whole string, trying
every split a backtracking matcher would try. -/
def matchItems : List PatItem → List Char → Bool
  | [], [] => true
  | [], _ :: _ => false
  | _ :: _, [] => false
  | PatItem.one p :: r, c :: s => p c && matchItems r s
  | PatItem.plus p :: r, c :: s => p c && (matchItems (PatItem.plus p :: r) s || matchItems r s)

/-- The class `[^\s@]`. -/
def notSpaceAt (c : Char) : Bool := !(isJsWhiteSpace c || c == '@')

/-- The pattern `emailRegex` of `validateForm`. -/
def emailRegex : List PatItem :=
  [PatItem.plus notSpaceAt, PatItem.one (fun c => c == '@'), PatItem.plus notSpaceAt,
   PatItem.one (fun c => c == '.'), PatItem.plus notSpaceAt]

/-- `emailRegex.test(s)`. -/
def emailRegexTest (s : String) : Bool := matchItems emailRegex s.data

/-! ## `Portfolio.validateForm` (main.js) -/

/-- The record built by `Object.fromEntries(new FormData(form))`, restricted to the four
fields the validator reads; a field that the form does not carry is `undefined`. -/
structure FormData where
  name : Option String
  email : Option String
  subject : Option String
  message : Option String

/-- `!v || v.trim().length < n` for a field value `v`. -/
def tooShort (v : Option String) (n : Nat) : Bool :=
  match v with
  | none => true
  | some s => !jsTruthy (some s) || decide (jsLength (jsTrim s.data) < n)

/-- `!v || !emailRegex.test(v)` for a field value `v`. -/
def badEmail (v : Option String) : Bool :=
  match v with
  | none => true
  | some s => !jsTruthy (some s) || !emailRegexTest s

/-- Outcome of `validateForm`: the `errors` object handed to `displayFormErrors`, as its
list of (key, message) pairs in insertion order, and the returned boolean. -/
structure Validation where
  errors : List (String × String)
  ok : Bool

/-- `validateForm(data)`. -/
def validateForm (data : FormData) : Validation :=
  let errors : List (String × String) := []
  let errors := if tooShort data.name 2 then
    errors ++ [("name", "Name must be at least 2 characters long")] else errors
  let errors := if badEmail data.email then
    errors ++ [("email", "Please enter a valid email address")] else errors
  let errors := if tooShort data.subject 5 then
    errors ++ [("subject", "Subject must be at least 5 characters long")] else errors
  let errors := if tooShort data.message 10 then
    errors ++ [("message", "Message must be at least 10 characters long")] else errors
  { errors := errors, ok := decide (errors.length = 0) }

/-- The keys of the recorded errors (`Object.keys(errors)`). -/
def Validation.keys (v : Validation) : List String := v.errors.map Prod.fst

/-- Rule of the name, subject and message fields, in the words of the specification: the
field is missing, or its trimmed length is below the minimum. -/
def FailsLength (v : Option String) (n : Nat) : Prop :=
  v = none ∨ ∃ s, v = some s ∧ jsLength (jsTrim s.data) < n

/-- Rule of the email field, in the words of the specification: the field is missing, or it
does not match the email pattern. -/
def FailsEmail (v : Option String) : Prop :=
  v = none ∨ ∃ s, v = some s ∧ emailRegexTest s = false

end Portfolio

/-! ## `ParticleSystem.getParticleCount` (particles.js) -/

namespace ParticleSystem

/-- `getParticleCount()`, as a function of `window.innerWidth`. -/
def getParticleCount (width : ℤ) : ℕ :=
  if width < 768 then 30
  else if width < 1024 then 50
  else 80

end ParticleSystem

/-! ## `ThemeManager` (theme.js) -/

namespace ThemeManager

open JS

/-- The page state the theme manager reads and writes: the `data-theme` attribute of the
document element (`none` while the attribute is absent), the `content` of the
`theme-color` meta element, and the value stored under `portfolio-theme` in local storage
(`none` when the key is absent). The icon text and the `themechange` broadcast are
presentation-only and are not part of the state. -/
structure State where
  dataTheme : Option String
  themeColor : Option String
  stored : Option String
deriving DecidableEq, Repr

/-- `setTheme(theme)`. -/
def setTheme (st : State) (theme : String) : State :=
  { st with
    dataTheme := some theme
    themeColor := some (if theme = "dark" then "#111827" else "#f8f9fa") }

/-- `localStorage.setItem(key, theme)`; `throws` says whether the browser rejects the
access (disabled or full storage). -/
def setItem (st : State) (theme : String) (throws : Bool) : Except Unit State :=
  if throws then Except.error () else Except.ok { st with stored := some theme }

/-- `localStorage.getItem(key)`; `throws` says whether the browser rejects the access. -/
def getItem (st : State) (throws : Bool) : Except Unit (Option String) :=
  if throws then Except.error () else Except.ok st.stored

/-- `saveTheme(theme)`: the write is wrapped in `try`/`catch`, a failure is only logged. -/
def saveTheme (st : State) (theme : String) (writeThrows : Bool) : State :=
  match setItem st theme writeThrows with
  | Except.ok st1 => st1
  | Except.error _ => st

/-- `getSystemTheme()`; `matchMedia` is `none` when `window.matchMedia` is unavailable and
otherwise carries `matches` of the query `(prefers-color-scheme: dark)`. -/
def getSystemTheme (matchMedia : Option Bool) : String :=
  match matchMedia with
  | some true => "dark"
  | _ => "light"

/-- `loadSavedTheme()`. -/
def loadSavedTheme (st : State) (readThrows : Bool) (matchMedia : Option Bool) : State :=
  match getItem st readThrows with
  | Except.ok (some savedTheme) =>
      if jsTruthy (some savedTheme) then setTheme st savedTheme
      else setTheme st (getSystemTheme matchMedia)
  | Except.ok none => setTheme st (getSystemTheme matchMedia)
  | Except.error _ => setTheme st (getSystemTheme matchMedia)

/-- `toggleTheme()`. -/
def toggleTheme (st : State) (writeThrows : Bool) : State :=
  let currentTheme := st.dataTheme
  let newTheme := if currentTheme = some "dark" then "light" else "dark"
  saveTheme (setTheme st newTheme) newTheme writeThrows

/-- The `change` listener installed by `watchSystemTheme()`; the storage read is not
guarded, so a failing read leaves the handler with an exception. -/
def onSystemChange (st : State) (isDark : Bool) (readThrows : Bool) : Except Unit State :=
  match getItem st readThrows with
  | Except.error e => Except.error e
  | Except.ok v =>
      if !jsTruthy v then Except.ok (setTheme st (if isDark then "dark" else "light"))
      else Except.ok st

/-- What can happen after startup: a click on the toggle, or a change of the system colour
scheme; each carries whether local storage rejects the access made while handling it. -/
inductive Event where
  | toggle (writeThrows : Bool)
  | systemChange (isDark : Bool) (readThrows : Bool)
deriving DecidableEq, Repr

/-- One event handled by the page. A system change is only heard when `watchSystemTheme`
installed its listener (`watching`); an exception leaving that listener is reported by the
browser and the state stays as the listener left it, which is unchanged. -/
def step (watching : Bool) (st : State) : Event → State
  | Event.toggle writeThrows => toggleTheme st writeThrows
  | Event.systemChange isDark readThrows =>
      if watching then
        match onSystemChange st isDark readThrows with
        | Except.ok st1 => st1
        | Except.error _ => st
      else st

/-- `init()` followed by a sequence of events: `loadSavedTheme`, then `watchSystemTheme`
(which listens iff `window.matchMedia` exists), then the events in order. -/
def run (st0 : State) (readThrows : Bool) (matchMedia : Option Bool) (events : List Event) :
    State :=
  events.foldl (step matchMedia.isSome) (loadSavedTheme st0 readThrows matchMedia)

/-- The active theme. -/
def State.active (st : State) : Option String := st.dataTheme

/-- The active theme is one of the two enumerated values. -/
def LightOrDark (st : State) : Prop :=
  st.active = some "light" ∨ st.active = some "dark"

end ThemeManager

/-! ## Frame-driven animators (animations.js) -/

namespace JS

/-- The idiom `parseInt(attr) || dflt`: `NaN` (`none`) and `0` are falsy and give the
default, every other integer is kept. -/
def orDefault (v : Option ℤ) (dflt : ℤ) : ℤ :=
  match v with
  | none => dflt
  | some n => if n = 0 then dflt else n

/-- An animated element as the frame callbacks see it: the values written to it so far, in
order, and whether a call of `requestAnimationFrame` is outstanding. -/
structure Animated (α : Type) where
  writes : List α
  frameRequested : Bool
deriving DecidableEq, Repr

/-- One display refresh at time stamp `t`: the browser runs the outstanding frame callback,
if there is one, and the request is consumed. -/
def onFrame {α : Type} (callback : Animated α → ℚ → Animated α) (el : Animated α) (t : ℚ) :
    Animated α :=
  if el.frameRequested then callback { el with frameRequested := false } t else el

/-- A run of refresh ticks with the given time stamps. -/
def runFrames {α : Type} (callback : Animated α → ℚ → Animated α) (el : Animated α)
    (ts : List ℚ) : Animated α :=
  ts.foldl (onFrame callback) el

/-- The value an element shows: the last value written to it. -/
def Animated.shown {α : Type} (el : Animated α) : Option α := el.writes.getLast?

/-- Clamping to the unit interval, `clamp(x, 0, 1)`, in the words of the specification. -/
def clamp01 (x : ℚ) : ℚ := max 0 (min x 1)

end JS

namespace CounterAnimation

open JS

/-- The variables closed over by `updateCounter`. -/
structure Counter where
  target : ℤ
  duration : ℤ
  start : ℤ
  startTime : ℚ
deriving DecidableEq, Repr

/-- The `progress` of `updateCounter`: `Math.min(elapsed / duration, 1)`. -/
def progress (c : Counter) (currentTime : ℚ) : ℚ :=
  let elapsed := currentTime - c.startTime
  min (elapsed / (c.duration : ℚ)) 1

/-- The frame callback `updateCounter(currentTime)`; the number written stands for its
`toLocaleString()` rendering. -/
def updateCounter (c : Counter) (el : Animated ℤ) (currentTime : ℚ) : Animated ℤ :=
  let progress := progress c currentTime
  let easeOutQuart := 1 - (1 - progress) ^ 4
  let current := ⌊(c.start : ℚ) + ((c.target - c.start : ℤ) : ℚ) * easeOutQuart⌋
  let el := { el with writes := el.writes ++ [current] }
  if progress < 1 then { el with frameRequested := true }
  else { el with writes := el.writes ++ [c.target] }

/-- `animateCounter(element)`: reads the three attributes (`data-counter`, an integer;
`data-duration` and `data-start`, `none` when they do not parse), records the start time
`performance.now()` and requests the first frame. -/
def animateCounter (target : ℤ) (durationAttr startAttr : Option ℤ) (now : ℚ) :
    Counter × Animated ℤ :=
  ({ target := target
     duration := orDefault durationAttr 2000
     start := orDefault startAttr 0
     startTime := now },
   { writes := [], frameRequested := true })

/-- The run of `animateCounter` over the refresh ticks `ts`. -/
def animation (target : ℤ) (durationAttr startAttr : Option ℤ) (now : ℚ) (ts : List ℚ) :
    Animated ℤ :=
  runFrames (updateCounter (animateCounter target durationAttr startAttr now).1)
    (animateCounter target durationAttr startAttr now).2 ts

end CounterAnimation

namespace ProgressBarAnimation

open JS

/-- The variables closed over by `updateProgress`; `duration` is the constant 1500. -/
structure Bar where
  progress : ℤ
  duration : ℤ
  startTime : ℚ
deriving DecidableEq, Repr

/-- The `progressPercent` of `updateProgress`: `Math.min(elapsed / duration, 1)`. -/
def progressPercent (b : Bar) (currentTime : ℚ) : ℚ :=
  let elapsed := currentTime - b.startTime
  min (elapsed / (b.duration : ℚ)) 1

/-- The frame callback `updateProgress(currentTime)`; the number written is the percentage
put in `bar.style.width`. -/
def updateProgress (b : Bar) (el : Animated ℚ) (currentTime : ℚ) : Animated ℚ :=
  let progressPercent := progressPercent b currentTime
  let easeOutCubic := 1 - (1 - progressPercent) ^ 3
  let currentProgress := (b.progress : ℚ) * easeOutCubic
  let el := { el with writes := el.writes ++ [currentProgress] }
  if progressPercent < 1 then { el with frameRequested := true } else el

/-- `animateProgressBar(bar)`: reads `data-progress`, records the start time and requests
the first frame. -/
def animateProgressBar (progress : ℤ) (now : ℚ) : Bar × Animated ℚ :=
  ({ progress := progress, duration := 1500, startTime := now },
   { writes := [], frameRequested := true })

/-- The run of `animateProgressBar` over the refresh ticks `ts`. -/
def animation (progress : ℤ) (now : ℚ) (ts : List ℚ) : Animated ℚ :=
  runFrames (updateProgress (animateProgressBar progress now).1)
    (animateProgressBar progress now).2 ts

end ProgressBarAnimation

/-! ## `ParticleSystem` particles (particles.js) -/

namespace ParticleSystem

/-- The viewport read through `window.innerWidth` and `window.innerHeight`. -/
structure Viewport where
  innerWidth : ℤ
  innerHeight : ℤ
deriving DecidableEq, Repr

/-- The numeric fields of a particle object (its DOM element only mirrors them). -/
structure Particle where
  x : ℚ
  y : ℚ
  vx : ℚ
  vy : ℚ
  size : ℚ
  opacity : ℚ
  life : ℚ
  decay : ℚ
deriving DecidableEq, Repr

/-- The values returned by the seven calls of `Math.random()` in `createParticle`, in the
order of the calls. -/
structure CreateDraws where
  rx : ℚ
  ry : ℚ
  rvx : ℚ
  rvy : ℚ
  rsize : ℚ
  ropacity : ℚ
  rdecay : ℚ

/-- The values returned by the five calls of `Math.random()` in `resetParticle`, in the
order of the calls. -/
structure ResetDraws where
  rx : ℚ
  ry : ℚ
  rvx : ℚ
  rvy : ℚ
  ropacity : ℚ

/-- The range of `Math.random()`: `0 ≤ r < 1`. -/
def IsDraw (r : ℚ) : Prop := 0 ≤ r ∧ r < 1

/-- Every draw of a creation lies in the range of `Math.random()`. -/
def CreateDraws.Valid (r : CreateDraws) : Prop :=
  IsDraw r.rx ∧ IsDraw r.ry ∧ IsDraw r.rvx ∧ IsDraw r.rvy ∧ IsDraw r.rsize ∧
  IsDraw r.ropacity ∧ IsDraw r.rdecay

/-- Every draw of a reset lies in the range of `Math.random()`. -/
def ResetDraws.Valid (r : ResetDraws) : Prop :=
  IsDraw r.rx ∧ IsDraw r.ry ∧ IsDraw r.rvx ∧ IsDraw r.rvy ∧ IsDraw r.ropacity

/-- The particle object built by `createParticle()`. -/
def createParticle (vp : Viewport) (r : CreateDraws) : Particle :=
  { x := r.rx * vp.innerWidth
    y := r.ry * vp.innerHeight
    vx := (r.rvx - 0.5) * 0.5
    vy := (r.rvy - 0.5) * 0.5
    size := r.rsize * 3 + 1
    opacity := r.ropacity * 0.5 + 0.1
    life := 1
    decay := r.rdecay * 0.005 + 0.001 }

/-- `resetParticle(particle)`. -/
def resetParticle (particle : Particle) (vp : Viewport) (r : ResetDraws) : Particle :=
  { particle with
    x := r.rx * vp.innerWidth
    y := r.ry * vp.innerHeight
    vx := (r.rvx - 0.5) * 0.5
    vy := (r.rvy - 0.5) * 0.5
    life := 1
    opacity := r.ropacity * 0.5 + 0.1 }

/-- The boundary condition of `updateParticle`: the particle left the viewport or its life
ran out. -/
def outOfBoundsOrDead (particle : Particle) (vp : Viewport) : Bool :=
  decide (particle.x < 0) || decide (particle.x > vp.innerWidth) ||
  decide (particle.y < 0) || decide (particle.y > vp.innerHeight) ||
  decide (particle.life ≤ 0)

/-- `updateParticle(particle)`; the draws are consumed only when the particle is reset. -/
def updateParticle (particle : Particle) (vp : Viewport) (r : ResetDraws) : Particle :=
  let particle := { particle with x := particle.x + particle.vx }
  let particle := { particle with y := particle.y + particle.vy }
  let particle := { particle with life := particle.life - particle.decay }
  if outOfBoundsOrDead particle vp then resetParticle particle vp r else particle

/-- The life of one particle over a sequence of animation ticks, each with the viewport of
that moment and the draws `Math.random()` would return. -/
def ticks (particle : Particle) (ts : List (Viewport × ResetDraws)) : Particle :=
  ts.foldl (fun p t => updateParticle p t.1 t.2) particle

end ParticleSystem

/-! ## Intersection observers (animations.js, particles.js) -/

namespace JS

/-- An `IntersectionObserverEntry`, reduced to the two fields the callbacks read; elements
are identified by a number. -/
structure Entry where
  target : ℕ
  isIntersecting : Bool
deriving DecidableEq, Repr

/-- `observer.observe(el)`: adds the element to the observation targets (once). -/
def observe (targets : List ℕ) (el : ℕ) : List ℕ :=
  if el ∈ targets then targets else targets ++ [el]

/-- `observer.unobserve(el)`: removes the element from the observation targets. -/
def unobserve (targets : List ℕ) (el : ℕ) : List ℕ :=
  targets.filter (fun x => x ≠ el)

/-- The entries of a notification that reach the callback: the browser reports only on
elements that are observation targets when the notification is delivered. -/
def delivered (targets : List ℕ) (batch : List Entry) : List Entry :=
  batch.filter (fun e => decide (e.target ∈ targets))

/-- A notification carries at most one entry per element. -/
def OnePerTarget (batch : List Entry) : Prop := (batch.map Entry.target).Nodup

instance (batch : List Entry) : Decidable (OnePerTarget batch) := by
  unfold OnePerTarget; infer_instance

/-- The state of a one-shot trigger group: the observation targets of its observer and the
elements whose animation has been started, in order of the calls. -/
structure OneShot where
  targets : List ℕ
  started : List ℕ
deriving DecidableEq, Repr

/-- How often the animation of `el` has been started. -/
def OneShot.starts (st : OneShot) (el : ℕ) : ℕ := st.started.count el

end JS

namespace CounterAnimation

open JS

/-- The observer callback of `setupCounters`: for each intersecting entry,
`this.animateCounter(entry.target)` and then `observer.unobserve(entry.target)`. -/
def onIntersection (st : OneShot) (entries : List Entry) : OneShot :=
  entries.foldl (fun st entry =>
    if entry.isIntersecting then
      { started := st.started ++ [entry.target]
        targets := unobserve st.targets entry.target }
    else st) st

/-- `setupCounters()`: every `[data-counter]` element is observed. -/
def setupCounters (counterElements : List ℕ) : OneShot :=
  { targets := counterElements.foldl observe [], started := [] }

end CounterAnimation

namespace ProgressBarAnimation

open JS

/-- The observer callback of `setupProgressBars`: for each intersecting entry,
`this.animateProgressBar(entry.target)` and then `observer.unobserve(entry.target)`. -/
def onIntersection (st : OneShot) (entries : List Entry) : OneShot :=
  entries.foldl (fun st entry =>
    if entry.isIntersecting then
      { started := st.started ++ [entry.target]
        targets := unobserve st.targets entry.target }
    else st) st

/-- `setupProgressBars()`: every `[data-progress]` element is observed. -/
def setupProgressBars (progressBars : List ℕ) : OneShot :=
  { targets := progressBars.foldl observe [], started := [] }

end ProgressBarAnimation

namespace TextReveal

open JS

/-- The observer callback of `setupTextReveal`: for each intersecting entry,
`this.revealText(entry.target)` and then `observer.unobserve(entry.target)`. -/
def onIntersection (st : OneShot) (entries : List Entry) : OneShot :=
  entries.foldl (fun st entry =>
    if entry.isIntersecting then
      { started := st.started ++ [entry.target]
        targets := unobserve st.targets entry.target }
    else st) st

/-- `setupTextReveal()`: every `[data-text-reveal]` element is prepared and observed. -/
def setupTextReveal (textElements : List ℕ) : OneShot :=
  { targets := textElements.foldl observe [], started := [] }

end TextReveal

namespace JS

/-- The three one-shot trigger groups. -/
inductive Group where
  | counters
  | progressBars
  | textReveal
deriving DecidableEq, Repr

/-- The observer callback of a group. -/
def Group.callback : Group → OneShot → List Entry → OneShot
  | Group.counters => CounterAnimation.onIntersection
  | Group.progressBars => ProgressBarAnimation.onIntersection
  | Group.textReveal => TextReveal.onIntersection

/-- The setup of a group. -/
def Group.setup : Group → List ℕ → OneShot
  | Group.counters => CounterAnimation.setupCounters
  | Group.progressBars => ProgressBarAnimation.setupProgressBars
  | Group.textReveal => TextReveal.setupTextReveal

/-- One notification: the callback of the group runs on the delivered entries. -/
def Group.notify (g : Group) (st : OneShot) (batch : List Entry) : OneShot :=
  g.callback st (delivered st.targets batch)

/-- A sequence of notifications after the setup of the group on `elements`. -/
def Group.run (g : Group) (elements : List ℕ) (batches : List (List Entry)) : OneShot :=
  batches.foldl g.notify (g.setup elements)

end JS

namespace ScrollTrigger

open JS

/-- A registered callback: after `delay` ms it adds the class `className` to its element. -/
structure Callback where
  className : String
  delay : ℕ
deriving DecidableEq, Repr

/-- The state of the scroll trigger: the map `this.elements`, the observation targets of
`this.observer`, and the callback invocations so far (element and callback, in order). -/
structure State where
  elements : List (ℕ × Callback)
  targets : List ℕ
  invoked : List (ℕ × Callback)
deriving DecidableEq, Repr

/-- `Map.prototype.get`. -/
def mapGet (m : List (ℕ × Callback)) (k : ℕ) : Option Callback := m.lookup k

/-- `Map.prototype.set`: an existing key keeps its place and gets the new value. -/
def mapSet (m : List (ℕ × Callback)) (k : ℕ) (v : Callback) : List (ℕ × Callback) :=
  if m.any (fun p => p.1 == k) then m.map (fun p => if p.1 == k then (k, v) else p)
  else m ++ [(k, v)]

/-- One group of `registerElements`: each element gets a callback whose delay is its index
times `stagger`, and is observed. -/
def register (className : String) (stagger : ℕ) (st : State) (els : List ℕ) : State :=
  els.enum.foldl (fun st p =>
    { st with
      elements := mapSet st.elements p.2 { className := className, delay := p.1 * stagger }
      targets := observe st.targets p.2 }) st

/-- `setupObserver()` followed by `registerElements()`. -/
def registerElements (timelineItems skillTags projectCards : List ℕ) : State :=
  let st : State := { elements := [], targets := [], invoked := [] }
  let st := register "timeline-reveal" 200 st timelineItems
  let st := register "skill-reveal" 50 st skillTags
  register "project-reveal" 150 st projectCards

/-- The observer callback of `setupObserver`: the registered callback of an entry's target
is invoked when the entry is intersecting. -/
def onIntersection (st : State) (entries : List Entry) : State :=
  entries.foldl (fun st entry =>
    match mapGet st.elements entry.target with
    | some callback =>
        if entry.isIntersecting then
          { st with invoked := st.invoked ++ [(entry.target, callback)] }
        else st
    | none => st) st

/-- One notification: the callback runs on the delivered entries. -/
def notify (st : State) (batch : List Entry) : State :=
  onIntersection st (delivered st.targets batch)

/-- A sequence of notifications after registration. -/
def run (timelineItems skillTags projectCards : List ℕ) (batches : List (List Entry)) :
    State :=
  batches.foldl notify (registerElements timelineItems skillTags projectCards)

/-- How often the callback of `el` has been invoked. -/
def State.invocations (st : State) (el : ℕ) : ℕ :=
  (st.invoked.filter (fun p => p.1 == el)).length

end ScrollTrigger

/-! ## `ThemeManager` operations as computations that can throw (theme.js) -/

namespace ThemeManager

open JS

/-- `saveTheme(theme)` with its `try`/`catch` spelled out: the `try` block is the storage
write, the `catch` block only logs a warning. -/
def saveThemeResult (st : State) (theme : String) (writeThrows : Bool) : Except Unit State :=
  tryCatch (setItem st theme writeThrows) (fun _ => pure st)

/-- `toggleTheme()` as a computation that can throw: `setTheme`, then `saveTheme`. -/
def toggleThemeResult (st : State) (writeThrows : Bool) : Except Unit State :=
  let currentTheme := st.dataTheme
  let newTheme := if currentTheme = some "dark" then "light" else "dark"
  saveThemeResult (setTheme st newTheme) newTheme writeThrows

/-- The `try` block of `loadSavedTheme()` with its `catch`: `some` page state when the
block returned early after applying the saved theme, `none` when control falls through. -/
def loadSavedThemeTry (st : State) (readThrows : Bool) : Except Unit (Option State) :=
  tryCatch
    (do
      let savedTheme ← getItem st readThrows
      match savedTheme with
      | some v => if jsTruthy (some v) then pure (some (setTheme st v)) else pure none
      | none => pure none)
    (fun _ => pure none)

/-- `loadSavedTheme()` as a computation that can throw. -/
def loadSavedThemeResult (st : State) (readThrows : Bool) (matchMedia : Option Bool) :
    Except Unit State := do
  match (← loadSavedThemeTry st readThrows) with
  | some st1 => pure st1
  | none => pure (setTheme st (getSystemTheme matchMedia))

/-- The theme `toggleTheme()` switches to. -/
def toggled (st : State) : String :=
  if st.dataTheme = some "dark" then "light" else "dark"

end ThemeManager

/-! ## The particle field and its browser registrations (particles.js) -/

namespace ParticleSystem

/-- The `ParticleSystem` object together with what it has registered with the browser: the
current window size, `this.particles`, `this.particleCount`, `this.animationId` (`none`
while it is `null`), the handles of the outstanding `requestAnimationFrame` requests, the
handle the next request will get, and whether the debounce timeout of the resize listener
is pending. The resize listener itself is added once and never removed. -/
structure Field where
  window : Viewport
  particles : List Particle
  particleCount : ℕ
  animationId : Option ℕ
  frameRequests : List ℕ
  nextHandle : ℕ
  resizeTimer : Bool

/-- `createParticles()`: the collection is emptied and `particleCount` particles are pushed,
the `i`-th built from the draws `draws i`. -/
def createParticles (f : Field) (draws : ℕ → CreateDraws) : Field :=
  { f with
    particles := (List.range f.particleCount).foldl
      (fun ps i => ps ++ [createParticle f.window (draws i)]) [] }

/-- `animate()`: every particle is updated in place (the `i`-th with the draws `draws i`),
then the next frame is requested and its handle stored in `this.animationId`. -/
def animate (f : Field) (draws : ℕ → ResetDraws) : Field :=
  { f with
    particles := f.particles.enum.map (fun ip => updateParticle ip.2 f.window (draws ip.1))
    animationId := some f.nextHandle
    frameRequests := f.frameRequests ++ [f.nextHandle]
    nextHandle := f.nextHandle + 1 }

/-- The constructor: `getParticleCount()`, `init()` (which is `createParticles()` followed by
a first `animate()`), and `setupResizeHandler()`. Handles start at 1. -/
def construct (vp : Viewport) (cdraws : ℕ → CreateDraws) (rdraws : ℕ → ResetDraws) : Field :=
  let f : Field :=
    { window := vp
      particles := []
      particleCount := getParticleCount vp.innerWidth
      animationId := none
      frameRequests := []
      nextHandle := 1
      resizeTimer := false }
  animate (createParticles f cdraws) rdraws

/-- The function debounced by `setupResizeHandler()`. -/
def resizeHandler (f : Field) (draws : ℕ → CreateDraws) : Field :=
  let newParticleCount := getParticleCount f.window.innerWidth
  if newParticleCount ≠ f.particleCount then
    createParticles { f with particleCount := newParticleCount } draws
  else f

/-- `destroy()`: the request named by a truthy `this.animationId` is cancelled, the
container and the collection are emptied. -/
def destroy (f : Field) : Field :=
  let f : Field :=
    match f.animationId with
    | some id =>
        if id ≠ 0 then { f with frameRequests := f.frameRequests.filter (fun h => h ≠ id) }
        else f
    | none => f
  { f with particles := [] }

/-- What happens to a field: a display refresh, a resize of the window to a new size, the
expiry of the 250 ms debounce delay, and a call of `destroy()`. -/
inductive FieldEvent where
  | frame (draws : ℕ → ResetDraws)
  | resize (vp : Viewport)
  | timeout (draws : ℕ → CreateDraws)
  | destroy

/-- One event. A refresh runs the outstanding frame callbacks, each of which is
`this.animate()`; a resize re-arms the debounce timeout (`clearTimeout`, `setTimeout`); the
expiry of a pending timeout runs the debounced function. -/
def fieldStep (f : Field) : FieldEvent → Field
  | FieldEvent.frame draws =>
      f.frameRequests.foldl (fun g _ => animate g draws) { f with frameRequests := [] }
  | FieldEvent.resize vp => { f with window := vp, resizeTimer := true }
  | FieldEvent.timeout draws =>
      if f.resizeTimer then resizeHandler { f with resizeTimer := false } draws else f
  | FieldEvent.destroy => destroy f

/-- A sequence of events. -/
def fieldRun (f : Field) (events : List FieldEvent) : Field :=
  events.foldl fieldStep f

/-- A resize of the window to `vp` followed by the expiry of the debounce delay. -/
def resized (f : Field) (vp : Viewport) (draws : ℕ → CreateDraws) : Field :=
  fieldStep (fieldStep f (FieldEvent.resize vp)) (FieldEvent.timeout draws)

/-- Draws that are all one half. -/
def halfCreate : ℕ → CreateDraws := fun _ => ⟨1/2, 1/2, 1/2, 1/2, 1/2, 1/2, 1/2⟩

/-- Reset draws that are all one half. -/
def halfReset : ℕ → ResetDraws := fun _ => ⟨1/2, 1/2, 1/2, 1/2, 1/2⟩

end ParticleSystem

/-! ## Easing functions (animations.js) -/

namespace CounterAnimation

/-- The quartic ease-out of `updateCounter`: `1 - Math.pow(1 - progress, 4)`. -/
def easeOutQuart (progress : ℚ) : ℚ := 1 - (1 - progress) ^ 4

end CounterAnimation

namespace ProgressBarAnimation

/-- The cubic ease-out of `updateProgress`: `1 - Math.pow(1 - progressPercent, 3)`. -/
def easeOutCubic (progressPercent : ℚ) : ℚ := 1 - (1 - progressPercent) ^ 3

end ProgressBarAnimation

/-! ## Magnetic pointer effects (animations.js, particles.js) -/

namespace JS

/-- The fields of `element.getBoundingClientRect()` the effects read. -/
structure DOMRect where
  left : ℚ
  top : ℚ
  width : ℚ
  height : ℚ
deriving DecidableEq, Repr

/-- The value `translate(x px, y px)` written to `element.style.transform`. -/
structure Translate where
  x : ℚ
  y : ℚ
deriving DecidableEq, Repr

/-- A pointer event on a bound element: a move at client coordinates over an element with
the given bounding box, or the pointer leaving the element. -/
inductive PointerEvent where
  | mousemove (clientX clientY : ℚ) (rect : DOMRect)
  | mouseleave
deriving DecidableEq, Repr

end JS

namespace AnimationController

open JS

/-- The constant `strength` of `applyMagneticEffect`. -/
def strength : ℚ := 0.2

/-- `applyMagneticEffect(e, element)`: the translation written to the element. -/
def applyMagneticEffect (clientX clientY : ℚ) (rect : DOMRect) : Translate :=
  let x := clientX - rect.left - rect.width / 2
  let y := clientY - rect.top - rect.height / 2
  let moveX := x * strength
  let moveY := y * strength
  { x := moveX, y := moveY }

/-- The `mousemove` and `mouseleave` listeners of `setupButtonInteractions`: the transform
each writes. -/
def onPointer : PointerEvent → Translate
  | PointerEvent.mousemove clientX clientY rect => applyMagneticEffect clientX clientY rect
  | PointerEvent.mouseleave => { x := 0, y := 0 }

end AnimationController

namespace MagneticEffect

open JS

/-- The constant `strength` of `bindMagneticEffect`. -/
def strength : ℚ := 0.3

/-- The `mousemove` and `mouseleave` listeners of `bindMagneticEffect`: the transform each
writes. -/
def onPointer : PointerEvent → Translate
  | PointerEvent.mousemove clientX clientY rect =>
      let x := clientX - rect.left - rect.width / 2
      let y := clientY - rect.top - rect.height / 2
      let moveX := x * strength
      let moveY := y * strength
      { x := moveX, y := moveY }
  | PointerEvent.mouseleave => { x := 0, y := 0 }

end MagneticEffect

/-! ## The interval-based counter of `Portfolio.animateCounter` (main.js) -/

namespace Portfolio

/-- The state of one run of `animateCounter`: the variable `current`, the values written to
`element.textContent` in order, and whether the interval timer is still set. -/
structure IntervalCounter where
  current : ℚ
  writes : List ℤ
  timerActive : Bool
deriving DecidableEq, Repr

/-- The constant `increment = target / (duration / 16)` with `duration = 2000`. -/
def increment (target : ℤ) : ℚ := (target : ℚ) / (2000 / 16)

/-- `animateCounter(element)` up to `setInterval`: `current = start = 0`, timer set. -/
def animateCounter (_target : ℤ) : IntervalCounter :=
  { current := 0, writes := [], timerActive := true }

/-- One expiry of the 16 ms interval: the timer callback runs while the timer is set. -/
def intervalTick (target : ℤ) (st : IntervalCounter) : IntervalCounter :=
  if st.timerActive then
    let current := st.current + increment target
    let st : IntervalCounter :=
      { st with current := current, writes := st.writes ++ [⌊current⌋] }
    if current ≥ (target : ℚ) then
      { st with writes := st.writes ++ [target], timerActive := false }
    else st
  else st

/-- The run after `n` expiries of the interval. -/
def intervalRun (target : ℤ) (n : ℕ) : IntervalCounter :=
  (intervalTick target)^[n] (animateCounter target)

/-- The value the element displays: the last value written. -/
def IntervalCounter.shown (st : IntervalCounter) : Option ℤ := st.writes.getLast?

end Portfolio

/-! ## The click ripple (animations.js) -/

namespace AnimationController

open JS

/-- The numeric part of the inline style of the ripple `span`: `width`, `height`, `left`,
`top` in px and the scale of its initial `transform`. -/
structure Ripple where
  width : ℚ
  height : ℚ
  left : ℚ
  top : ℚ
  scale : ℚ
deriving DecidableEq, Repr

/-- A keyframe of the ripple animation. -/
structure Keyframe where
  scale : ℚ
  opacity : ℚ
deriving DecidableEq, Repr

/-- The arguments of `ripple.animate(keyframes, options)`. -/
structure RippleAnimation where
  keyframes : List Keyframe
  duration : ℕ
deriving DecidableEq, Repr

/-- The clicked element: its child nodes (by identity) and the two style properties
`createRipple` sets on it. -/
structure Host where
  children : List ℕ
  position : Option String
  overflow : Option String
deriving DecidableEq, Repr

/-- `createRipple(e, element)` up to the start of the animation; `span` is the node made by
`document.createElement('span')`. -/
def createRipple (clientX clientY : ℚ) (rect : DOMRect) (element : Host) (span : ℕ) :
    Host × Ripple × RippleAnimation :=
  let size := max rect.width rect.height
  let x := clientX - rect.left - size / 2
  let y := clientY - rect.top - size / 2
  let ripple : Ripple := { width := size, height := size, left := x, top := y, scale := 0 }
  let element : Host :=
    { children := element.children ++ [span]
      position := some "relative"
      overflow := some "hidden" }
  (element, ripple,
    { keyframes := [{ scale := 0, opacity := 1 }, { scale := 2, opacity := 0 }]
      duration := 600 })

/-- The `onfinish` callback of the animation: `ripple.remove()`. -/
def onfinish (element : Host) (span : ℕ) : Host :=
  { element with children := element.children.filter (fun n => n ≠ span) }

/-- `validateInput(input)`: the validity computed from `input.type` and `input.value`. -/
def validateInput (type : String) (inputValue : String) : Bool :=
  let value := jsTrim inputValue.data
  if type = "email" then Portfolio.emailRegexTest (String.mk value)
  else if type = "text" then decide (jsLength value ≥ 2)
  else decide (jsLength value > 0)

end AnimationController

/-! ## The hover scale of the custom cursor (main.js) -/

namespace Portfolio

/-- `s.replace(pattern, '')` for a string pattern: the first occurrence of the pattern,
searched from the left, is removed. -/
def removeFirst (pattern : List Char) : List Char → List Char
  | [] => []
  | c :: s =>
      if pattern.isPrefixOf (c :: s) then (c :: s).drop pattern.length
      else c :: removeFirst pattern s

/-- The literal `' scale(1.5)'`. -/
def scaleSuffix : List Char := " scale(1.5)".data

/-- White space of CSS values: space, tab, line feed, form feed, carriage return. -/
def isCssWhiteSpace (c : Char) : Bool :=
  c == ' ' || c.toNat == 9 || c.toNat == 10 || c.toNat == 12 || c.toNat == 13

/-- The pieces of a string between white-space characters, empty pieces included. -/
def splitWs : List Char → List (List Char)
  | [] => [[]]
  | c :: s =>
      if isCssWhiteSpace c then [] :: splitWs s
      else
        match splitWs s with
        | [] => [[c]]
        | f :: fs => (c :: f) :: fs

/-- The components of an assigned value: its maximal runs without white space. -/
def cssComponents (s : List Char) : List (List Char) :=
  (splitWs s).filter (fun w => !w.isEmpty)

/-- Serialisation: the components separated by single spaces. -/
def cssSerialize : List (List Char) → List Char
  | [] => []
  | [w] => w
  | w :: v :: ws => w ++ ' ' :: cssSerialize (v :: ws)

/-- What `style.transform` reads back after `style.transform = s`: a `CSSStyleDeclaration`
does not keep the assigned string, it parses the value and serialises it again. Of that,
this keeps what the listeners depend on: white space at both ends is dropped and the white
space between components becomes one space. The values considered are lists of transform
functions in serialised form (and the empty value), which an assignment leaves as they
are. -/
def cssAssign (s : List Char) : List Char := cssSerialize (cssComponents s)

/-- The `mouseenter` listener of `setupCursor`: `transform += ' scale(1.5)'`, that is the
value read from the style with the literal appended, assigned to the style; the result is
the value the style reads back. -/
def cursorEnter (transform : List Char) : List Char := cssAssign (transform ++ scaleSuffix)

/-- The `mouseleave` listener of `setupCursor`:
`transform = transform.replace(' scale(1.5)', '')` on the value read from the style; the
result is the value the style reads back. -/
def cursorLeave (transform : List Char) : List Char :=
  cssAssign (removeFirst scaleSuffix transform)

/-- The string `' scale(1.5)'` repeated `n` times. -/
def scaleSuffixes : ℕ → List Char
  | 0 => []
  | n + 1 => scaleSuffix ++ scaleSuffixes n

/-- What the email pattern accepts, in the words of the specification: no white space,
exactly one `@` with at least one character before it, and a `.` in the part after the `@`
that is neither its first nor its last character. -/
def EmailShape (s : List Char) : Prop :=
  (∀ c ∈ s, JS.isJsWhiteSpace c = false) ∧ s.count '@' = 1 ∧
  ∃ l d, s = l ++ '@' :: d ∧ l ≠ [] ∧ ∃ a b, d = a ++ '.' :: b ∧ a ≠ [] ∧ b ≠ []

end Portfolio

/-! ## `TextEffects.splitText` (animations.js) -/

namespace TextEffects

open JS

/-- `text.split(sep)` for a separator of one UTF-16 code unit; a text is its list of code
units. -/
def splitOnUnit (sep : ℕ) : List ℕ → List (List ℕ)
  | [] => [[]]
  | c :: s =>
      if c = sep then [] :: splitOnUnit sep s
      else
        match splitOnUnit sep s with
        | [] => [[c]]
        | f :: fs => (c :: f) :: fs

/-- `text.split('')`: one fragment per code unit. -/
def splitChars (text : List ℕ) : List (List ℕ) := text.map (fun c => [c])

/-- The literal `'&nbsp;'`. -/
def nbsp : List ℕ := "&nbsp;".data.map Char.toNat

/-- The literal `' '`. -/
def space : List ℕ := [32]

/-- One generated `span`: its class `split-<type>`, its animation delay in ms and its
content as written into the markup. -/
structure Span where
  cls : String
  delayMs : ℕ
  content : List ℕ
deriving DecidableEq, Repr

/-- `getAttribute('data-split') || 'chars'`. -/
def splitTypeOf (attr : Option String) : String :=
  match attr with
  | some v => if jsTruthy (some v) then v else "chars"
  | none => "chars"

/-- The `splitArray` of `splitText`. -/
def splitArray (text : List ℕ) (splitType : String) : List (List ℕ) :=
  if splitType = "words" then splitOnUnit 32 text
  else if splitType = "lines" then splitOnUnit 10 text
  else splitChars text

/-- `splitText(element)`: the spans generated from `element.textContent` and the attribute
`data-split`, in order. -/
def splitText (text : List ℕ) (attr : Option String) : List Span :=
  let splitType := splitTypeOf attr
  (splitArray text splitType).enum.map (fun p =>
    { cls := "split-" ++ splitType
      delayMs := p.1 * 50
      content := if p.2 = space then nbsp else p.2 })

/-- `fragments.join(sep)` for a separator of one code unit. -/
def joinWith (sep : ℕ) : List (List ℕ) → List ℕ
  | [] => []
  | [f] => f
  | f :: g :: fs => f ++ sep :: joinWith sep (g :: fs)

/-- `fragments.join('')`. -/
def joinEmpty : List (List ℕ) → List ℕ
  | [] => []
  | f :: fs => f ++ joinEmpty fs

/-- Reading a fragment back: `&nbsp;` is read as a space. -/
def readBack (fragment : List ℕ) : List ℕ :=
  if fragment = nbsp then space else fragment

/-- The fragments of the generated spans, read back. -/
def fragments (text : List ℕ) (attr : Option String) : List (List ℕ) :=
  (splitText text attr).map (fun sp => readBack sp.content)

end TextEffects

/-! ## Form validation: proofs -/

namespace Portfolio

open JS

theorem tooShort_iff (v : Option String) (n : Nat) (hn : 0 < n) :
    tooShort v n = true ↔ FailsLength v n := by
  cases v with
  | none => simp [tooShort, FailsLength]
  | some s =>
    cases h : s.data with
    | nil => simp [tooShort, FailsLength, jsTruthy, h, jsTrim, jsLength, hn]
    | cons c t => simp [tooShort, FailsLength, jsTruthy, h]

theorem badEmail_iff (v : Option String) : badEmail v = true ↔ FailsEmail v := by
  cases v with
  | none => simp [badEmail, FailsEmail]
  | some s =>
    cases h : s.data with
    | nil => simp [badEmail, FailsEmail, jsTruthy, h, emailRegexTest, emailRegex, matchItems]
    | cons c t => simp [badEmail, FailsEmail, jsTruthy, h]

/-- C1: `validateForm` records an error for exactly those of the four fields that fail
their rule, records nothing else, and returns `true` iff no error was recorded; the two
sample records of the specification give four errors and no error. -/
theorem validateForm_spec (d : FormData) :
    ("name" ∈ (validateForm d).keys ↔ FailsLength d.name 2) ∧
    ("email" ∈ (validateForm d).keys ↔ FailsEmail d.email) ∧
    ("subject" ∈ (validateForm d).keys ↔ FailsLength d.subject 5) ∧
    ("message" ∈ (validateForm d).keys ↔ FailsLength d.message 10) ∧
    (∀ k ∈ (validateForm d).keys, k ∈ ["name", "email", "subject", "message"]) ∧
    (validateForm d).keys.Nodup ∧
    ((validateForm d).ok = true ↔ (validateForm d).errors = []) ∧
    (validateForm ⟨some "A", some "bad", some "hi", some "short"⟩).keys
      = ["name", "email", "subject", "message"] ∧
    (validateForm ⟨some "A", some "bad", some "hi", some "short"⟩).ok = false ∧
    (validateForm ⟨some "Jo", some "a@b.co", some "Hello there",
      some "This is a long enough message."⟩).errors = [] ∧
    (validateForm ⟨some "Jo", some "a@b.co", some "Hello there",
      some "This is a long enough message."⟩).ok = true := by
  refine ⟨?_, ?_, ?_, ?_, ?_, ?_, ?_, by decide, by decide, by decide, by decide⟩
  · rw [← tooShort_iff _ _ (by decide)]
    cases h1 : tooShort d.name 2 <;> cases h2 : badEmail d.email <;>
      cases h3 : tooShort d.subject 5 <;> cases h4 : tooShort d.message 10 <;>
      simp [validateForm, Validation.keys, h1, h2, h3, h4]
  · rw [← badEmail_iff]
    cases h1 : tooShort d.name 2 <;> cases h2 : badEmail d.email <;>
      cases h3 : tooShort d.subject 5 <;> cases h4 : tooShort d.message 10 <;>
      simp [validateForm, Validation.keys, h1, h2, h3, h4]
  · rw [← tooShort_iff _ _ (by decide)]
    cases h1 : tooShort d.name 2 <;> cases h2 : badEmail d.email <;>
      cases h3 : tooShort d.subject 5 <;> cases h4 : tooShort d.message 10 <;>
      simp [validateForm, Validation.keys, h1, h2, h3, h4]
  · rw [← tooShort_iff _ _ (by decide)]
    cases h1 : tooShort d.name 2 <;> cases h2 : badEmail d.email <;>
      cases h3 : tooShort d.subject 5 <;> cases h4 : tooShort d.message 10 <;>
      simp [validateForm, Validation.keys, h1, h2, h3, h4]
  · cases h1 : tooShort d.name 2 <;> cases h2 : badEmail d.email <;>
      cases h3 : tooShort d.subject 5 <;> cases h4 : tooShort d.message 10 <;>
      simp [validateForm, Validation.keys, h1, h2, h3, h4]
  · cases h1 : tooShort d.name 2 <;> cases h2 : badEmail d.email <;>
      cases h3 : tooShort d.subject 5 <;> cases h4 : tooShort d.message 10 <;>
      simp [validateForm, Validation.keys, h1, h2, h3, h4]
  · cases h1 : tooShort d.name 2 <;> cases h2 : badEmail d.email <;>
      cases h3 : tooShort d.subject 5 <;> cases h4 : tooShort d.message 10 <;>
      simp [validateForm, h1, h2, h3, h4]

end Portfolio

/-! ## Particle density: proofs -/

namespace ParticleSystem

/-- C2: `getParticleCount` returns 30 below 768, 50 from 768 up to (excluding) 1024 and 80
from 1024 on; widths 500, 900 and 1400 give 30, 50 and 80. -/
theorem getParticleCount_spec (w : ℤ) :
    (w < 768 → getParticleCount w = 30) ∧
    (768 ≤ w ∧ w < 1024 → getParticleCount w = 50) ∧
    (1024 ≤ w → getParticleCount w = 80) ∧
    getParticleCount 500 = 30 ∧ getParticleCount 900 = 50 ∧ getParticleCount 1400 = 80 := by
  refine ⟨?_, ?_, ?_, by decide, by decide, by decide⟩
  · intro h; simp [getParticleCount, h]
  · rintro ⟨h1, h2⟩
    have : ¬ w < 768 := by omega
    simp [getParticleCount, this, h2]
  · intro h
    have h1 : ¬ w < 768 := by omega
    have h2 : ¬ w < 1024 := by omega
    simp [getParticleCount, h1, h2]

theorem getParticleCount_spec_witness :
    (500 : ℤ) < 768 ∧ getParticleCount 900 = 50 ∧ getParticleCount 2000 = 80 :=
  ⟨by decide, (getParticleCount_spec 900).2.1 ⟨by decide, by decide⟩,
    (getParticleCount_spec 2000).2.2.1 (by decide)⟩

end ParticleSystem

/-! ## Theme manager: proofs -/

namespace ThemeManager

open JS

theorem jsTruthy_some_of_ne_empty (v : String) (h : v ≠ "") : jsTruthy (some v) = true := by
  cases v with
  | mk d =>
    cases d with
    | nil => exact absurd rfl h
    | cons c t => simp [jsTruthy]

theorem getSystemTheme_cases (mm : Option Bool) :
    getSystemTheme mm = "light" ∨ getSystemTheme mm = "dark" := by
  cases mm with
  | none => left; rfl
  | some b => cases b <;> simp [getSystemTheme]

theorem setTheme_active (st : State) (t : String) : (setTheme st t).active = some t := rfl

theorem saveTheme_active (st : State) (t : String) (w : Bool) :
    (saveTheme st t w).active = st.active := by
  cases w <;> rfl

theorem lightOrDark_toggle (st : State) (w : Bool) : LightOrDark (toggleTheme st w) := by
  unfold LightOrDark toggleTheme
  simp only [saveTheme_active, setTheme_active]
  by_cases h : st.dataTheme = some "dark"
  · left; simp [h]
  · right; simp [h]

theorem lightOrDark_step (watching : Bool) (st : State) (e : Event) (h : LightOrDark st) :
    LightOrDark (step watching st e) := by
  cases e with
  | toggle w => exact lightOrDark_toggle st w
  | systemChange d r =>
    cases watching
    · simpa [step] using h
    · cases r
      · cases hv : jsTruthy st.stored
        · cases d
          · left; simp [step, onSystemChange, getItem, hv, setTheme_active]
          · right; simp [step, onSystemChange, getItem, hv, setTheme_active]
        · simpa [step, onSystemChange, getItem, hv] using h
      · simpa [step, onSystemChange, getItem] using h

theorem lightOrDark_foldl (watching : Bool) (events : List Event) (st : State)
    (h : LightOrDark st) : LightOrDark (events.foldl (step watching) st) := by
  induction events generalizing st with
  | nil => exact h
  | cons e es ih => exact ih _ (lightOrDark_step watching st e h)

theorem loadSavedTheme_fallback (st : State) (r : Bool) (mm : Option Bool)
    (h : r = true ∨ st.stored = none ∨ st.stored = some "") :
    (loadSavedTheme st r mm).active = some (getSystemTheme mm) := by
  rcases h with h | h | h
  · subst h; rfl
  · cases r <;> simp [loadSavedTheme, getItem, h, setTheme_active]
  · cases r <;> simp [loadSavedTheme, getItem, h, setTheme_active, jsTruthy]

theorem loadSavedTheme_saved (st : State) (mm : Option Bool) (v : String)
    (hs : st.stored = some v) (hv : v ≠ "") :
    (loadSavedTheme st false mm).active = some v := by
  simp [loadSavedTheme, getItem, hs, jsTruthy_some_of_ne_empty v hv, setTheme_active]

/-- C3 (as stated, refuted): with the empty string persisted and the system signal dark,
the active theme after `loadSavedTheme` is `dark`, not the persisted value. -/
theorem loadSavedTheme_empty_persisted_counterexample :
    (State.mk none none (some "")).stored = some "" ∧
    (loadSavedTheme (State.mk none none (some "")) false (some true)).active = some "dark" ∧
    (loadSavedTheme (State.mk none none (some "")) false (some true)).active ≠ some "" := by
  decide

/-- C3 (amended): `loadSavedTheme` resolves the active theme in the order non-empty
persisted value, system colour-scheme signal, default light: a readable non-empty persisted
value becomes the active theme whatever the system signal is; when the persisted value is
absent, empty or unreadable the active theme is `dark` if the system signal is dark and
`light` otherwise. No persisted value with system dark gives dark, persisted `light` with
system dark gives light. -/
theorem loadSavedTheme_resolution (st : State) (readThrows : Bool) (mm : Option Bool) :
    (∀ v, readThrows = false → st.stored = some v → v ≠ "" →
      (loadSavedTheme st readThrows mm).active = some v) ∧
    ((readThrows = true ∨ st.stored = none ∨ st.stored = some "") → mm = some true →
      (loadSavedTheme st readThrows mm).active = some "dark") ∧
    ((readThrows = true ∨ st.stored = none ∨ st.stored = some "") → mm ≠ some true →
      (loadSavedTheme st readThrows mm).active = some "light") ∧
    (loadSavedTheme { st with stored := none } false (some true)).active = some "dark" ∧
    (loadSavedTheme { st with stored := some "light" } false (some true)).active
      = some "light" := by
  refine ⟨?_, ?_, ?_, ?_, ?_⟩
  · intro v hr hs hv
    subst hr
    exact loadSavedTheme_saved st mm v hs hv
  · intro h hm
    rw [loadSavedTheme_fallback st readThrows mm h, hm]; rfl
  · intro h hm
    rw [loadSavedTheme_fallback st readThrows mm h]
    cases mm with
    | none => rfl
    | some b =>
      cases b
      · rfl
      · exact absurd rfl hm
  · exact loadSavedTheme_fallback _ false (some true) (Or.inr (Or.inl rfl))
  · exact loadSavedTheme_saved _ (some true) "light" rfl (by decide)

theorem loadSavedTheme_resolution_witness :
    (loadSavedTheme (State.mk none none (some "dark")) false (some false)).active = some "dark" ∧
    (loadSavedTheme (State.mk none none none) true (some true)).active = some "dark" ∧
    (loadSavedTheme (State.mk none none (some "")) false none).active = some "light" :=
  ⟨(loadSavedTheme_resolution (State.mk none none (some "dark")) false (some false)).1
      "dark" rfl rfl (by decide),
   (loadSavedTheme_resolution (State.mk none none none) true (some true)).2.1
      (Or.inl rfl) rfl,
   (loadSavedTheme_resolution (State.mk none none (some "")) false none).2.2.1
      (Or.inr (Or.inr rfl)) (by decide)⟩

/-- C10 (as stated, refuted): started with the persisted string `blue`, the active theme is
`blue`, neither `light` nor `dark`, and a system colour-scheme change leaves it so. -/
theorem active_theme_counterexample :
    (run (State.mk none none (some "blue")) false (some true) []).active = some "blue" ∧
    (run (State.mk none none (some "blue")) false (some true)
      [Event.systemChange false false]).active = some "blue" ∧
    ¬ LightOrDark (run (State.mk none none (some "blue")) false (some true) []) := by
  unfold LightOrDark
  decide

/-- C10 (amended): when the persisted value at startup is absent, empty, unreadable,
`light` or `dark`, the active theme is `light` or `dark` in every reachable state (startup
followed by any sequence of toggles and system colour-scheme changes); and whatever was
persisted, the active theme is `light` or `dark` from the first user toggle on. -/
theorem active_theme_light_or_dark (st0 : State) (readThrows : Bool) (mm : Option Bool) :
    ((readThrows = true ∨ st0.stored = none ∨ st0.stored = some "" ∨
        st0.stored = some "light" ∨ st0.stored = some "dark") →
      ∀ events, LightOrDark (run st0 readThrows mm events)) ∧
    (∀ before w after,
      LightOrDark (run st0 readThrows mm (before ++ Event.toggle w :: after))) := by
  constructor
  · intro h events
    apply lightOrDark_foldl
    have hsys : LightOrDark (setTheme st0 (getSystemTheme mm)) := by
      rcases getSystemTheme_cases mm with h1 | h1
      · left; rw [setTheme_active, h1]
      · right; rw [setTheme_active, h1]
    rcases h with h | h | h | h | h
    · unfold LightOrDark
      rw [loadSavedTheme_fallback st0 readThrows mm (Or.inl h)]
      simpa [LightOrDark, setTheme_active] using hsys
    · unfold LightOrDark
      rw [loadSavedTheme_fallback st0 readThrows mm (Or.inr (Or.inl h))]
      simpa [LightOrDark, setTheme_active] using hsys
    · unfold LightOrDark
      rw [loadSavedTheme_fallback st0 readThrows mm (Or.inr (Or.inr h))]
      simpa [LightOrDark, setTheme_active] using hsys
    · cases readThrows
      · left; exact loadSavedTheme_saved st0 mm "light" h (by decide)
      · unfold LightOrDark
        rw [loadSavedTheme_fallback st0 true mm (Or.inl rfl)]
        simpa [LightOrDark, setTheme_active] using hsys
    · cases readThrows
      · right; exact loadSavedTheme_saved st0 mm "dark" h (by decide)
      · unfold LightOrDark
        rw [loadSavedTheme_fallback st0 true mm (Or.inl rfl)]
        simpa [LightOrDark, setTheme_active] using hsys
  · intro before w after
    unfold run
    rw [List.foldl_append, List.foldl_cons]
    apply lightOrDark_foldl
    exact lightOrDark_toggle _ w

theorem active_theme_light_or_dark_witness :
    LightOrDark (run (State.mk none none (some "dark")) false (some false)
      [Event.toggle false, Event.systemChange true false, Event.toggle true]) :=
  (active_theme_light_or_dark (State.mk none none (some "dark")) false (some false)).1
    (Or.inr (Or.inr (Or.inr (Or.inr rfl)))) _

end ThemeManager

/-! ## Frame-driven animators: proofs -/

namespace JS

theorem runFrames_idle {α : Type} (cb : Animated α → ℚ → Animated α) (ts : List ℚ)
    (el : Animated α) (h : el.frameRequested = false) : runFrames cb el ts = el := by
  induction ts with
  | nil => rfl
  | cons t ts ih =>
    have h1 : onFrame cb el t = el := by simp [onFrame, h]
    simpa [runFrames, h1] using ih

theorem runFrames_append {α : Type} (cb : Animated α → ℚ → Animated α) (xs ys : List ℚ)
    (el : Animated α) : runFrames cb el (xs ++ ys) = runFrames cb (runFrames cb el xs) ys := by
  simp [runFrames, List.foldl_append]

theorem runFrames_cons {α : Type} (cb : Animated α → ℚ → Animated α) (t : ℚ) (ts : List ℚ)
    (el : Animated α) : runFrames cb el (t :: ts) = runFrames cb (onFrame cb el t) ts := rfl

/-- While every tick leaves a frame requested, a run leaves a frame requested. -/
theorem runFrames_requested {α : Type} (cb : Animated α → ℚ → Animated α) (ts : List ℚ)
    (hcb : ∀ el, ∀ t ∈ ts, (cb el t).frameRequested = true)
    (el : Animated α) (h : el.frameRequested = true) :
    (runFrames cb el ts).frameRequested = true := by
  induction ts generalizing el with
  | nil => exact h
  | cons t ts ih =>
    rw [runFrames_cons]
    apply ih
    · intro el1 u hu
      exact hcb el1 u (List.mem_cons_of_mem _ hu)
    · simp only [onFrame, h, if_true]
      exact hcb _ t (List.mem_cons_self _ _)

/-- A run that meets a tick on which the callback requests no further frame stops there:
later ticks change nothing. -/
theorem runFrames_stops {α : Type} (cb : Animated α → ℚ → Animated α)
    (before : List ℚ) (t : ℚ) (after : List ℚ) (el : Animated α)
    (hreq : (runFrames cb el before).frameRequested = true)
    (hdone : ∀ el1, (cb el1 t).frameRequested = el1.frameRequested) :
    runFrames cb el (before ++ t :: after) = runFrames cb el (before ++ [t]) ∧
    runFrames cb el (before ++ [t])
      = cb { runFrames cb el before with frameRequested := false } t := by
  have h1 : runFrames cb el (before ++ [t])
      = cb { runFrames cb el before with frameRequested := false } t := by
    rw [runFrames_append, runFrames_cons]
    have hreq1 : (List.foldl (onFrame cb) el before).frameRequested = true := hreq
    simp only [runFrames, List.foldl_nil, onFrame]
    rw [if_pos hreq1]
  refine ⟨?_, h1⟩
  have h2 : (runFrames cb el (before ++ [t])).frameRequested = false := by
    rw [h1, hdone]
  have h3 : before ++ t :: after = (before ++ [t]) ++ after := by simp
  rw [h3, runFrames_append, runFrames_idle cb after _ h2]

end JS

namespace CounterAnimation

open JS

theorem updateCounter_running (c : Counter) (el : Animated ℤ) (t : ℚ) (h : progress c t < 1) :
    (updateCounter c el t).frameRequested = true := by
  simp [updateCounter, h]

theorem updateCounter_done (c : Counter) (el : Animated ℤ) (t : ℚ) (h : progress c t = 1) :
    updateCounter c el t = { el with writes := el.writes ++ [c.target] ++ [c.target] } := by
  simp [updateCounter, h]

theorem progress_eq_one_iff (c : Counter) (t : ℚ) (h : 0 < c.duration) :
    progress c t = 1 ↔ c.startTime + c.duration ≤ t := by
  have hd : (0 : ℚ) < (c.duration : ℚ) := by exact_mod_cast h
  unfold progress
  simp only [min_eq_right_iff]
  rw [le_div_iff₀ hd]
  constructor <;> intro h1 <;> linarith

theorem progress_lt_one_iff (c : Counter) (t : ℚ) (h : 0 < c.duration) :
    progress c t < 1 ↔ t < c.startTime + c.duration := by
  have hd : (0 : ℚ) < (c.duration : ℚ) := by exact_mod_cast h
  unfold progress
  simp only [min_lt_iff, lt_self_iff_false, or_false]
  rw [div_lt_iff₀ hd]
  constructor <;> intro h1 <;> linarith

theorem progress_mono (c : Counter) (h : 0 < c.duration) : Monotone (progress c) := by
  have hd : (0 : ℚ) < (c.duration : ℚ) := by exact_mod_cast h
  intro a b hab
  unfold progress
  apply min_le_min _ le_rfl
  apply div_le_div_of_nonneg_right _ hd.le
  linarith

theorem progress_eq_clamp (c : Counter) (t : ℚ) (h : 0 < c.duration) (ht : c.startTime ≤ t) :
    progress c t = clamp01 ((t - c.startTime) / (c.duration : ℚ)) := by
  have hd : (0 : ℚ) < (c.duration : ℚ) := by exact_mod_cast h
  have h0 : 0 ≤ (t - c.startTime) / (c.duration : ℚ) :=
    div_nonneg (by linarith) hd.le
  unfold progress clamp01
  rw [max_eq_right]
  exact le_min h0 zero_le_one

end CounterAnimation

namespace ProgressBarAnimation

open JS

theorem updateProgress_running (b : Bar) (el : Animated ℚ) (t : ℚ)
    (h : progressPercent b t < 1) : (updateProgress b el t).frameRequested = true := by
  simp [updateProgress, h]

theorem updateProgress_done (b : Bar) (el : Animated ℚ) (t : ℚ)
    (h : progressPercent b t = 1) :
    updateProgress b el t = { el with writes := el.writes ++ [(b.progress : ℚ)] } := by
  simp [updateProgress, h]

theorem progressPercent_eq_one_iff (b : Bar) (t : ℚ) (h : 0 < b.duration) :
    progressPercent b t = 1 ↔ b.startTime + b.duration ≤ t := by
  have hd : (0 : ℚ) < (b.duration : ℚ) := by exact_mod_cast h
  unfold progressPercent
  simp only [min_eq_right_iff]
  rw [le_div_iff₀ hd]
  constructor <;> intro h1 <;> linarith

theorem progressPercent_mono (b : Bar) (h : 0 < b.duration) :
    Monotone (progressPercent b) := by
  have hd : (0 : ℚ) < (b.duration : ℚ) := by exact_mod_cast h
  intro x y hxy
  unfold progressPercent
  apply min_le_min _ le_rfl
  apply div_le_div_of_nonneg_right _ hd.le
  linarith

theorem progressPercent_eq_clamp (b : Bar) (t : ℚ) (h : 0 < b.duration)
    (ht : b.startTime ≤ t) :
    progressPercent b t = clamp01 ((t - b.startTime) / (b.duration : ℚ)) := by
  have hd : (0 : ℚ) < (b.duration : ℚ) := by exact_mod_cast h
  have h0 : 0 ≤ (t - b.startTime) / (b.duration : ℚ) :=
    div_nonneg (by linarith) hd.le
  unfold progressPercent clamp01
  rw [max_eq_right]
  exact le_min h0 zero_le_one

end ProgressBarAnimation
namespace CounterAnimation

open JS

theorem counter_animation_final (target : ℤ) (durationAttr startAttr : Option ℤ) (now : ℚ)
    (before : List ℚ) (t : ℚ) (after : List ℚ)
    (hb : ∀ u ∈ before, progress (animateCounter target durationAttr startAttr now).1 u < 1)
    (ht : progress (animateCounter target durationAttr startAttr now).1 t = 1) :
    (animation target durationAttr startAttr now before).frameRequested = true ∧
    animation target durationAttr startAttr now (before ++ t :: after)
      = animation target durationAttr startAttr now (before ++ [t]) ∧
    (animation target durationAttr startAttr now (before ++ t :: after)).frameRequested
      = false ∧
    (animation target durationAttr startAttr now (before ++ t :: after)).shown
      = some target := by
  have hreq : (animation target durationAttr startAttr now before).frameRequested = true :=
    runFrames_requested _ before (fun el u hu => updateCounter_running _ el u (hb u hu)) _ rfl
  have hs := runFrames_stops
    (updateCounter (animateCounter target durationAttr startAttr now).1) before t after
    (animateCounter target durationAttr startAttr now).2 hreq
    (fun el1 => by rw [updateCounter_done _ _ _ ht])
  refine ⟨hreq, hs.1, ?_, ?_⟩
  · unfold animation
    rw [hs.1, hs.2, updateCounter_done _ _ _ ht]
  · unfold animation
    rw [hs.1, hs.2, updateCounter_done _ _ _ ht]
    simp [Animated.shown, animateCounter]

end CounterAnimation

namespace ProgressBarAnimation

open JS

theorem bar_animation_final (p : ℤ) (now : ℚ) (before : List ℚ) (t : ℚ) (after : List ℚ)
    (hb : ∀ u ∈ before, progressPercent (animateProgressBar p now).1 u < 1)
    (ht : progressPercent (animateProgressBar p now).1 t = 1) :
    (animation p now before).frameRequested = true ∧
    animation p now (before ++ t :: after) = animation p now (before ++ [t]) ∧
    (animation p now (before ++ t :: after)).frameRequested = false ∧
    (animation p now (before ++ t :: after)).shown = some (p : ℚ) := by
  have hreq : (animation p now before).frameRequested = true :=
    runFrames_requested _ before (fun el u hu => updateProgress_running _ el u (hb u hu)) _ rfl
  have hs := runFrames_stops (updateProgress (animateProgressBar p now).1) before t after
    (animateProgressBar p now).2 hreq (fun el1 => by rw [updateProgress_done _ _ _ ht])
  refine ⟨hreq, hs.1, ?_, ?_⟩
  · unfold animation
    rw [hs.1, hs.2, updateProgress_done _ _ _ ht]
  · unfold animation
    rw [hs.1, hs.2, updateProgress_done _ _ _ ht]
    simp [Animated.shown, animateProgressBar]

end ProgressBarAnimation

namespace CounterAnimation

open JS

/-- C4: a run of `animateCounter` ends on the first tick whose progress reaches 1 (for a
positive duration, the first tick at or after start time plus duration): up to that tick a
frame stays requested, on it the value shown is exactly `target` and no frame is requested,
and later ticks change nothing; the same holds for `animateProgressBar`, whose last width is
exactly the target percentage. -/
theorem final_value_is_target (target : ℤ) (durationAttr startAttr : Option ℤ)
    (percent : ℤ) (now : ℚ) (before : List ℚ) (t : ℚ) (after : List ℚ) :
    (0 < orDefault durationAttr 2000 →
      (∀ u ∈ before, u < now + orDefault durationAttr 2000) →
      now + orDefault durationAttr 2000 ≤ t →
        progress (animateCounter target durationAttr startAttr now).1 t = 1 ∧
        (animation target durationAttr startAttr now before).frameRequested = true ∧
        animation target durationAttr startAttr now (before ++ t :: after)
          = animation target durationAttr startAttr now (before ++ [t]) ∧
        (animation target durationAttr startAttr now (before ++ t :: after)).frameRequested
          = false ∧
        (animation target durationAttr startAttr now (before ++ t :: after)).shown
          = some target) ∧
    ((∀ u ∈ before, u < now + 1500) → now + 1500 ≤ t →
        ProgressBarAnimation.progressPercent
          (ProgressBarAnimation.animateProgressBar percent now).1 t = 1 ∧
        (ProgressBarAnimation.animation percent now before).frameRequested = true ∧
        ProgressBarAnimation.animation percent now (before ++ t :: after)
          = ProgressBarAnimation.animation percent now (before ++ [t]) ∧
        (ProgressBarAnimation.animation percent now (before ++ t :: after)).frameRequested
          = false ∧
        (ProgressBarAnimation.animation percent now (before ++ t :: after)).shown
          = some (percent : ℚ)) := by
  constructor
  · intro hd hb ht
    have hd1 : 0 < (animateCounter target durationAttr startAttr now).1.duration := hd
    have h1 : progress (animateCounter target durationAttr startAttr now).1 t = 1 :=
      (progress_eq_one_iff _ t hd1).2 (by simpa [animateCounter] using ht)
    refine ⟨h1, counter_animation_final target durationAttr startAttr now before t after ?_ h1⟩
    intro u hu
    exact (progress_lt_one_iff _ u hd1).2 (by simpa [animateCounter] using hb u hu)
  · intro hb ht
    have hd1 : 0 < (ProgressBarAnimation.animateProgressBar percent now).1.duration := by
      simp [ProgressBarAnimation.animateProgressBar]
    have h1 : ProgressBarAnimation.progressPercent
        (ProgressBarAnimation.animateProgressBar percent now).1 t = 1 :=
      (ProgressBarAnimation.progressPercent_eq_one_iff _ t hd1).2
        (by simpa [ProgressBarAnimation.animateProgressBar] using ht)
    refine ⟨h1, ProgressBarAnimation.bar_animation_final percent now before t after ?_ h1⟩
    intro u hu
    have h2 := hb u hu
    have h3 : ¬ ProgressBarAnimation.progressPercent
        (ProgressBarAnimation.animateProgressBar percent now).1 u = 1 := by
      rw [ProgressBarAnimation.progressPercent_eq_one_iff _ u hd1]
      simp only [ProgressBarAnimation.animateProgressBar]
      push_cast
      linarith
    have h4 : ProgressBarAnimation.progressPercent
        (ProgressBarAnimation.animateProgressBar percent now).1 u ≤ 1 := by
      unfold ProgressBarAnimation.progressPercent
      exact min_le_right _ _
    exact lt_of_le_of_ne h4 h3

theorem final_value_is_target_witness :
    (animation 100 none none 0 ([1000] ++ 2000 :: [3000])).shown = some 100 ∧
    (ProgressBarAnimation.animation 80 0 ([500] ++ 1500 :: [1600])).shown
      = some ((80 : ℤ) : ℚ) :=
  ⟨((final_value_is_target 100 none none 80 0 [1000] 2000 [3000]).1
      (by decide) (by simp [orDefault]; norm_num) (by simp [orDefault])).2.2.2.2,
   ((final_value_is_target 100 none none 80 0 [500] 1500 [1600]).2
      (by simp; norm_num) (by norm_num)).2.2.2.2⟩

end CounterAnimation
namespace CounterAnimation

open JS

/-- C8 (as stated, refuted): with a duration attribute that does not parse (and likewise
with one that parses to 0) the first tick, 1000 ms after the start, writes 93 for the
target 100 and requests another frame. -/
theorem malformed_duration_counterexample :
    animation 100 none none 0 [1000] = { writes := [93], frameRequested := true } ∧
    animation 100 (some 0) none 0 [1000] = { writes := [93], frameRequested := true } := by
  have h : progress { target := 100, duration := 2000, start := 0, startTime := 0 } 1000
      = 1 / 2 := by
    norm_num [progress, min_def]
  constructor
  · simp [animation, animateCounter, runFrames, onFrame, updateCounter, orDefault, h]
    norm_num
  · simp [animation, animateCounter, runFrames, onFrame, updateCounter, orDefault, h]
    norm_num

/-- C8 (amended): for a duration attribute that is missing, does not parse to a number or
parses to 0, `animateCounter` runs with the default duration of 2000 ms: its first tick
writes exactly `target` and requests no further frame iff it comes at least 2000 ms after
the start, and an earlier first tick writes the floored eased value and requests another
frame. -/
theorem malformed_duration_uses_default (target : ℤ) (durationAttr startAttr : Option ℤ)
    (now t : ℚ) (h : durationAttr = none ∨ durationAttr = some 0) :
    (animateCounter target durationAttr startAttr now).1.duration = 2000 ∧
    (now + 2000 ≤ t →
      (animation target durationAttr startAttr now [t]).shown = some target ∧
      (animation target durationAttr startAttr now [t]).frameRequested = false) ∧
    (t < now + 2000 →
      (animation target durationAttr startAttr now [t]).writes
        = [⌊(orDefault startAttr 0 : ℚ) + ((target - orDefault startAttr 0 : ℤ) : ℚ)
            * (1 - (1 - (t - now) / 2000) ^ 4)⌋] ∧
      (animation target durationAttr startAttr now [t]).frameRequested = true) := by
  have hd : orDefault durationAttr 2000 = 2000 := by
    rcases h with h | h <;> simp [h, orDefault]
  have hpos : 0 < orDefault durationAttr 2000 := by rw [hd]; decide
  refine ⟨hd, ?_, ?_⟩
  · intro ht
    have hd1 : 0 < (animateCounter target durationAttr startAttr now).1.duration := hpos
    have hp : progress (animateCounter target durationAttr startAttr now).1 t = 1 :=
      (progress_eq_one_iff _ t hd1).2 (by simpa [animateCounter, hd] using ht)
    have h1 := counter_animation_final target durationAttr startAttr now [] t [] (by simp) hp
    exact ⟨h1.2.2.2, h1.2.2.1⟩
  · intro ht
    have hp : progress (animateCounter target durationAttr startAttr now).1 t
        = (t - now) / 2000 := by
      simp only [progress, animateCounter, hd]
      rw [min_eq_left]
      · norm_num
      · rw [div_le_iff₀ (by norm_num)]
        push_cast
        linarith
    have hlt : (t - now) / 2000 < 1 := by
      rw [div_lt_iff₀ (by norm_num)]
      linarith
    have hp1 : progress ⟨target, orDefault durationAttr 2000, orDefault startAttr 0, now⟩ t
        = (t - now) / 2000 := hp
    simp [animation, runFrames, onFrame, updateCounter, animateCounter, hp1, hlt]

theorem malformed_duration_uses_default_witness :
    (animation 100 none none 0 [2500]).shown = some 100 ∧
    (animation 100 (some 0) none 0 [16]).frameRequested = true :=
  ⟨((malformed_duration_uses_default 100 none none 0 2500 (Or.inl rfl)).2.1
      (by norm_num)).1,
   ((malformed_duration_uses_default 100 (some 0) none 0 16 (Or.inr rfl)).2.2
      (by norm_num)).2⟩

/-- C9 (as stated, refuted): on a tick earlier than the recorded start time the progress of
both animators is negative, while the clamped value is 0. -/
theorem progress_counterexample :
    progress (animateCounter 100 (some 2000) none 100).1 50 = -1 / 40 ∧
    clamp01 ((50 - 100) / 2000) = 0 ∧
    ProgressBarAnimation.progressPercent
      (ProgressBarAnimation.animateProgressBar 80 100).1 50 = -1 / 30 ∧
    clamp01 ((50 - 100) / 1500) = 0 := by
  refine ⟨?_, ?_, ?_, ?_⟩
  · norm_num [progress, animateCounter, orDefault, min_def]
  · norm_num [clamp01, min_def, max_def]
  · norm_num [ProgressBarAnimation.progressPercent, ProgressBarAnimation.animateProgressBar,
      min_def]
  · norm_num [clamp01, min_def, max_def]

/-- C9 (amended): for every duration > 0 the progress computed by `animateCounter` and
`animateProgressBar` is `min(elapsed/duration, 1)`, which equals
`clamp(elapsed/duration, 0, 1)` on every tick not earlier than the recorded start time, and
over any non-decreasing sequence of time stamps the successive progress values are
non-decreasing. -/
theorem progress_min_and_monotone (c : Counter) (percent : ℤ) (now : ℚ)
    (hc : 0 < c.duration) :
    (∀ t, progress c t = min ((t - c.startTime) / (c.duration : ℚ)) 1) ∧
    (∀ t, c.startTime ≤ t →
      progress c t = clamp01 ((t - c.startTime) / (c.duration : ℚ))) ∧
    (∀ ts : List ℚ, ts.Sorted (fun a b => a ≤ b) →
      (ts.map (progress c)).Sorted (fun a b => a ≤ b)) ∧
    (∀ t, ProgressBarAnimation.progressPercent
        (ProgressBarAnimation.animateProgressBar percent now).1 t
      = min ((t - now) / 1500) 1) ∧
    (∀ t, now ≤ t →
      ProgressBarAnimation.progressPercent
        (ProgressBarAnimation.animateProgressBar percent now).1 t
      = clamp01 ((t - now) / 1500)) ∧
    (∀ ts : List ℚ, ts.Sorted (fun a b => a ≤ b) →
      (ts.map (ProgressBarAnimation.progressPercent
        (ProgressBarAnimation.animateProgressBar percent now).1)).Sorted
          (fun a b => a ≤ b)) := by
  have hb : 0 < (ProgressBarAnimation.animateProgressBar percent now).1.duration := by
    simp [ProgressBarAnimation.animateProgressBar]
  refine ⟨fun t => rfl, fun t ht => progress_eq_clamp c t hc ht, ?_, ?_, ?_, ?_⟩
  · intro ts hs
    exact List.Pairwise.map _ (fun a b hab => progress_mono c hc hab) hs
  · intro t
    simp [ProgressBarAnimation.progressPercent, ProgressBarAnimation.animateProgressBar]
  · intro t ht
    have := ProgressBarAnimation.progressPercent_eq_clamp _ t hb ht
    simpa [ProgressBarAnimation.animateProgressBar] using this
  · intro ts hs
    exact List.Pairwise.map _
      (fun a b hab => ProgressBarAnimation.progressPercent_mono _ hb hab) hs

theorem progress_min_and_monotone_witness :
    ([0, 500, 500, 2500].map
      (progress { target := 100, duration := 2000, start := 0, startTime := 0 })).Sorted
        (fun a b => a ≤ b) :=
  (progress_min_and_monotone { target := 100, duration := 2000, start := 0, startTime := 0 }
    80 0 (by decide)).2.2.1 [0, 500, 500, 2500] (by norm_num [List.Sorted])

end CounterAnimation

/-! ## Particles: proofs -/

namespace ParticleSystem

theorem createParticle_decay (vp : Viewport) (r : CreateDraws) (h : r.Valid) :
    0.001 ≤ (createParticle vp r).decay ∧ (createParticle vp r).decay ≤ 0.006 := by
  obtain ⟨-, -, -, -, -, -, h0, h1⟩ := h
  simp only [createParticle]
  constructor <;> norm_num <;> linarith

theorem updateParticle_decay (p : Particle) (vp : Viewport) (r : ResetDraws) :
    (updateParticle p vp r).decay = p.decay := by
  unfold updateParticle
  simp only
  split <;> rfl

theorem updateParticle_life (p : Particle) (vp : Viewport) (r : ResetDraws)
    (hd : 0 ≤ p.decay) (hl : p.life ≤ 1) :
    0 < (updateParticle p vp r).life ∧ (updateParticle p vp r).life ≤ 1 := by
  unfold updateParticle
  simp only
  split
  · simp [resetParticle]
  · rename_i h
    simp only [outOfBoundsOrDead, Bool.or_eq_true, decide_eq_true_eq, not_or, not_le] at h
    refine ⟨h.2, ?_⟩
    show p.life - p.decay ≤ 1
    linarith

theorem ticks_life (ts : List (Viewport × ResetDraws)) (p : Particle)
    (hd : 0 ≤ p.decay) (h0 : 0 ≤ p.life) (hl : p.life ≤ 1) :
    0 ≤ (ticks p ts).life ∧ (ticks p ts).life ≤ 1 := by
  induction ts generalizing p with
  | nil => exact ⟨h0, hl⟩
  | cons t ts ih =>
    have h := updateParticle_life p t.1 t.2 hd hl
    exact ih (updateParticle p t.1 t.2) (by rw [updateParticle_decay]; exact hd) h.1.le h.2

theorem resetParticle_position (p : Particle) (vp : Viewport) (r : ResetDraws)
    (h : r.Valid) (hw : 0 ≤ vp.innerWidth) (hh : 0 ≤ vp.innerHeight) :
    0 ≤ (resetParticle p vp r).x ∧ (resetParticle p vp r).x ≤ vp.innerWidth ∧
    0 ≤ (resetParticle p vp r).y ∧ (resetParticle p vp r).y ≤ vp.innerHeight := by
  obtain ⟨⟨hx0, hx1⟩, ⟨hy0, hy1⟩, -⟩ := h
  have hw1 : (0 : ℚ) ≤ (vp.innerWidth : ℚ) := by exact_mod_cast hw
  have hh1 : (0 : ℚ) ≤ (vp.innerHeight : ℚ) := by exact_mod_cast hh
  simp only [resetParticle]
  refine ⟨mul_nonneg hx0 hw1, ?_, mul_nonneg hy0 hh1, ?_⟩
  · exact mul_le_of_le_one_left hw1 hx1.le
  · exact mul_le_of_le_one_left hh1 hy1.le

/-- C5: a particle built by `createParticle` has life 1 and a decay within
[0.001, 0.006], and after any number of `updateParticle` ticks (whatever the viewports and
the draws of the resets) its life satisfies 0 ≤ life ≤ 1; and right after `resetParticle`
the position lies within [0,width]×[0,height] of the current viewport. -/
theorem life_in_unit_interval (vp0 : Viewport) (r0 : CreateDraws)
    (ts : List (Viewport × ResetDraws)) (p : Particle) (vp : Viewport) (r : ResetDraws)
    (h0 : r0.Valid) (hr : r.Valid) (hw : 0 ≤ vp.innerWidth) (hh : 0 ≤ vp.innerHeight) :
    (createParticle vp0 r0).life = 1 ∧
    0.001 ≤ (createParticle vp0 r0).decay ∧ (createParticle vp0 r0).decay ≤ 0.006 ∧
    0 ≤ (ticks (createParticle vp0 r0) ts).life ∧
    (ticks (createParticle vp0 r0) ts).life ≤ 1 ∧
    0 ≤ (resetParticle p vp r).x ∧ (resetParticle p vp r).x ≤ vp.innerWidth ∧
    0 ≤ (resetParticle p vp r).y ∧ (resetParticle p vp r).y ≤ vp.innerHeight := by
  have hd := createParticle_decay vp0 r0 h0
  have hl : (createParticle vp0 r0).life = 1 := rfl
  have ht := ticks_life ts (createParticle vp0 r0) (by linarith [hd.1]) (by rw [hl]; norm_num)
    (by rw [hl])
  exact ⟨hl, hd.1, hd.2, ht.1, ht.2, resetParticle_position p vp r hr hw hh⟩

theorem life_in_unit_interval_witness :
    (ticks (createParticle ⟨1000, 800⟩ ⟨1/2, 1/2, 1/2, 1/2, 1/2, 1/2, 1/2⟩)
      [(⟨1000, 800⟩, ⟨1/4, 1/4, 1/4, 1/4, 1/4⟩)]).life ≤ 1 ∧
    (resetParticle (createParticle ⟨1000, 800⟩ ⟨1/2, 1/2, 1/2, 1/2, 1/2, 1/2, 1/2⟩)
      ⟨1000, 800⟩ ⟨1/4, 1/4, 1/4, 1/4, 1/4⟩).x ≤ ((1000 : ℤ) : ℚ) :=
  ⟨(life_in_unit_interval ⟨1000, 800⟩ ⟨1/2, 1/2, 1/2, 1/2, 1/2, 1/2, 1/2⟩
      [(⟨1000, 800⟩, ⟨1/4, 1/4, 1/4, 1/4, 1/4⟩)]
      (createParticle ⟨1000, 800⟩ ⟨1/2, 1/2, 1/2, 1/2, 1/2, 1/2, 1/2⟩)
      ⟨1000, 800⟩ ⟨1/4, 1/4, 1/4, 1/4, 1/4⟩
      (by norm_num [CreateDraws.Valid, IsDraw]) (by norm_num [ResetDraws.Valid, IsDraw])
      (by decide) (by decide)).2.2.2.2.1,
   (life_in_unit_interval ⟨1000, 800⟩ ⟨1/2, 1/2, 1/2, 1/2, 1/2, 1/2, 1/2⟩
      [(⟨1000, 800⟩, ⟨1/4, 1/4, 1/4, 1/4, 1/4⟩)]
      (createParticle ⟨1000, 800⟩ ⟨1/2, 1/2, 1/2, 1/2, 1/2, 1/2, 1/2⟩)
      ⟨1000, 800⟩ ⟨1/4, 1/4, 1/4, 1/4, 1/4⟩
      (by norm_num [CreateDraws.Valid, IsDraw]) (by norm_num [ResetDraws.Valid, IsDraw])
      (by decide) (by decide)).2.2.2.2.2.2.1⟩

end ParticleSystem

/-! ## Intersection observers: proofs -/

namespace JS

/-- What the callback of a one-shot group does with one entry. -/
theorem onIntersection_cons (st : OneShot) (e : Entry) (es : List Entry) :
    CounterAnimation.onIntersection st (e :: es)
      = CounterAnimation.onIntersection
          (if e.isIntersecting then
            { started := st.started ++ [e.target], targets := unobserve st.targets e.target }
           else st) es := rfl

theorem callback_eq (g : Group) : g.callback = CounterAnimation.onIntersection := by
  cases g <;> rfl

theorem starts_fire_self (st : OneShot) (x : ℕ) :
    OneShot.starts { started := st.started ++ [x], targets := unobserve st.targets x } x
      = st.starts x + 1 := by
  simp [OneShot.starts, List.count_append]

theorem starts_fire_other (st : OneShot) (x el : ℕ) (h : x ≠ el) :
    OneShot.starts { started := st.started ++ [x], targets := unobserve st.targets x } el
      = st.starts el := by
  simp [OneShot.starts, List.count_append, List.count_cons, h]

theorem mem_unobserve (targets : List ℕ) (x el : ℕ) :
    el ∈ unobserve targets x ↔ el ∈ targets ∧ el ≠ x := by
  simp [unobserve]

/-- Entries that do not report `el` as intersecting neither start its animation nor change
whether it is observed. -/
theorem onIntersection_quiet (es : List Entry) (st : OneShot) (el : ℕ)
    (h : ∀ e ∈ es, e.target = el → e.isIntersecting = false) :
    (CounterAnimation.onIntersection st es).starts el = st.starts el ∧
    (el ∈ (CounterAnimation.onIntersection st es).targets ↔ el ∈ st.targets) := by
  induction es generalizing st with
  | nil => exact ⟨rfl, Iff.rfl⟩
  | cons e es ih =>
    rw [onIntersection_cons]
    have hes : ∀ e1 ∈ es, e1.target = el → e1.isIntersecting = false :=
      fun e1 h1 => h e1 (List.mem_cons_of_mem _ h1)
    cases hi : e.isIntersecting with
    | false => simpa using ih st hes
    | true =>
      have hne : e.target ≠ el := by
        intro heq
        have := h e (List.mem_cons_self _ _) heq
        rw [hi] at this
        exact Bool.noConfusion this
      have h1 := ih { started := st.started ++ [e.target],
                      targets := unobserve st.targets e.target } hes
      simp only [if_true]
      rw [h1.1, h1.2, starts_fire_other st _ _ hne, mem_unobserve]
      exact ⟨rfl, ⟨fun h2 => h2.1, fun h2 => ⟨h2, fun h3 => hne h3.symm⟩⟩⟩

/-- An intersecting entry for `el`, in a notification with one entry per element, starts
the animation of `el` exactly once and unobserves it. -/
theorem onIntersection_fires (es : List Entry) (st : OneShot) (el : ℕ)
    (hn : OnePerTarget es) (hm : (⟨el, true⟩ : Entry) ∈ es) :
    (CounterAnimation.onIntersection st es).starts el = st.starts el + 1 ∧
    el ∉ (CounterAnimation.onIntersection st es).targets := by
  induction es generalizing st with
  | nil => exact absurd hm (List.not_mem_nil _)
  | cons e es ih =>
    rw [onIntersection_cons]
    have hn1 : e.target ∉ es.map Entry.target ∧ OnePerTarget es := by
      simpa [OnePerTarget] using hn
    rcases List.mem_cons.1 hm with heq | hmem
    · subst heq
      have hq : ∀ e1 ∈ es, e1.target = el → e1.isIntersecting = false := by
        intro e1 h1 h2
        have h3 : e1.target ∈ es.map Entry.target := List.mem_map_of_mem Entry.target h1
        rw [h2] at h3
        exact absurd h3 hn1.1
      have h1 := onIntersection_quiet es
        { started := st.started ++ [el], targets := unobserve st.targets el } el hq
      simp only [if_true]
      rw [h1.1, h1.2, starts_fire_self, mem_unobserve]
      exact ⟨rfl, fun h2 => h2.2 rfl⟩
    · have hne : e.target ≠ el := by
        intro heq
        have h3 : (⟨el, true⟩ : Entry).target ∈ es.map Entry.target :=
          List.mem_map_of_mem Entry.target hmem
        rw [heq] at hn1
        exact hn1.1 h3
      cases hi : e.isIntersecting with
      | false => simpa using ih st hn1.2 hmem
      | true =>
        have h1 := ih { started := st.started ++ [e.target],
                        targets := unobserve st.targets e.target } hn1.2 hmem
        simp only [if_true]
        rw [h1.1, starts_fire_other st _ _ hne]
        exact ⟨rfl, h1.2⟩

end JS
namespace JS

theorem delivered_onePerTarget (targets : List ℕ) (batch : List Entry)
    (h : OnePerTarget batch) : OnePerTarget (delivered targets batch) := by
  unfold OnePerTarget delivered
  exact List.Nodup.sublist (List.Sublist.map _ (List.filter_sublist _)) h

theorem mem_delivered (targets : List ℕ) (batch : List Entry) (e : Entry) :
    e ∈ delivered targets batch ↔ e ∈ batch ∧ e.target ∈ targets := by
  simp [delivered]

/-- Either a notification delivers an intersecting entry for `el`, or every delivered entry
for `el` is non-intersecting. -/
theorem delivered_cases (es : List Entry) (el : ℕ) :
    (⟨el, true⟩ : Entry) ∈ es ∨ ∀ e ∈ es, e.target = el → e.isIntersecting = false := by
  by_cases h : (⟨el, true⟩ : Entry) ∈ es
  · exact Or.inl h
  · right
    intro e he ht
    cases e with
    | mk tg i =>
      cases i with
      | false => rfl
      | true =>
        simp only at ht
        subst ht
        exact absurd he h

/-- One notification keeps the one-shot invariant: no element was started twice, and an
element still observed was never started. -/
theorem notify_invariant (g : Group) (st : OneShot) (batch : List Entry)
    (hb : OnePerTarget batch)
    (h : (∀ el, st.starts el ≤ 1) ∧ (∀ el ∈ st.targets, st.starts el = 0)) :
    (∀ el, (g.notify st batch).starts el ≤ 1) ∧
    (∀ el ∈ (g.notify st batch).targets, (g.notify st batch).starts el = 0) := by
  unfold Group.notify
  rw [callback_eq]
  have hd := delivered_onePerTarget st.targets batch hb
  constructor
  · intro el
    rcases delivered_cases (delivered st.targets batch) el with hc | hc
    · have h1 := onIntersection_fires _ st el hd hc
      have h2 : el ∈ st.targets := ((mem_delivered _ _ _).1 hc).2
      rw [h1.1, h.2 el h2]
    · rw [(onIntersection_quiet _ st el hc).1]
      exact h.1 el
  · intro el hel
    rcases delivered_cases (delivered st.targets batch) el with hc | hc
    · exact absurd hel (onIntersection_fires _ st el hd hc).2
    · have h1 := onIntersection_quiet _ st el hc
      rw [h1.1]
      exact h.2 el (h1.2.1 hel)

theorem run_invariant (g : Group) (batches : List (List Entry)) (st : OneShot)
    (hb : ∀ b ∈ batches, OnePerTarget b)
    (h : (∀ el, st.starts el ≤ 1) ∧ (∀ el ∈ st.targets, st.starts el = 0)) :
    ∀ el, (batches.foldl g.notify st).starts el ≤ 1 := by
  induction batches generalizing st with
  | nil => exact h.1
  | cons b bs ih =>
    exact ih (g.notify st b) (fun b1 h1 => hb b1 (List.mem_cons_of_mem _ h1))
      (notify_invariant g st b (hb b (List.mem_cons_self _ _)) h)

theorem setup_started (g : Group) (elements : List ℕ) : (g.setup elements).started = [] := by
  cases g <;> rfl

/-- C7 (as stated, refuted): a single notification whose queued entries report element 1
as intersecting, not intersecting and intersecting again (or twice as intersecting) starts
the animation of element 1 twice, in each of the three groups: the callback runs over all
delivered entries and `unobserve` does not withdraw entries already delivered. -/
theorem one_shot_counterexample :
    (Group.run Group.counters [1] [[⟨1, true⟩, ⟨1, false⟩, ⟨1, true⟩]]).starts 1 = 2 ∧
    (Group.run Group.progressBars [1] [[⟨1, true⟩, ⟨1, false⟩, ⟨1, true⟩]]).starts 1 = 2 ∧
    (Group.run Group.textReveal [1] [[⟨1, true⟩, ⟨1, false⟩, ⟨1, true⟩]]).starts 1 = 2 ∧
    (Group.run Group.counters [1] [[⟨1, true⟩, ⟨1, true⟩]]).starts 1 = 2 := by
  decide

/-- C7 (amended): in each one-shot trigger group (counters, progress bars, text reveal),
over any sequence of notifications carrying at most one entry per element, the animation of
an element is started at most once; a notification that reports an observed element as
intersecting starts its animation once and unobserves it in the same step; a notification
without an intersecting entry for the element neither starts it nor changes whether it is
observed. -/
theorem one_shot_at_most_once (g : Group) :
    (∀ (elements : List ℕ) (batches : List (List Entry)) (el : ℕ),
      (∀ b ∈ batches, OnePerTarget b) → (g.run elements batches).starts el ≤ 1) ∧
    (∀ (st : OneShot) (batch : List Entry) (el : ℕ),
      OnePerTarget batch → el ∈ st.targets → (⟨el, true⟩ : Entry) ∈ batch →
        (g.notify st batch).starts el = st.starts el + 1 ∧
        el ∉ (g.notify st batch).targets) ∧
    (∀ (st : OneShot) (batch : List Entry) (el : ℕ),
      (∀ e ∈ batch, e.target = el → e.isIntersecting = false) →
        (g.notify st batch).starts el = st.starts el ∧
        (el ∈ (g.notify st batch).targets ↔ el ∈ st.targets)) := by
  refine ⟨?_, ?_, ?_⟩
  · intro elements batches el hb
    apply run_invariant g batches (g.setup elements) hb
    constructor
    · intro x
      simp [OneShot.starts, setup_started]
    · intro x _
      simp [OneShot.starts, setup_started]
  · intro st batch el hb hel hm
    unfold Group.notify
    rw [callback_eq]
    exact onIntersection_fires _ st el (delivered_onePerTarget _ _ hb)
      ((mem_delivered _ _ _).2 ⟨hm, hel⟩)
  · intro st batch el hq
    unfold Group.notify
    rw [callback_eq]
    exact onIntersection_quiet _ st el
      (fun e he => hq e ((mem_delivered _ _ _).1 he).1)

theorem one_shot_at_most_once_witness :
    (Group.run Group.counters [1, 2] [[⟨1, true⟩], [⟨1, false⟩, ⟨2, false⟩],
      [⟨1, true⟩, ⟨2, true⟩]]).starts 1 ≤ 1 ∧
    1 ∉ (Group.notify Group.textReveal ⟨[1, 2], []⟩ [⟨1, true⟩]).targets ∧
    (Group.notify Group.progressBars ⟨[1, 2], []⟩ [⟨1, false⟩]).starts 1 = 0 :=
  ⟨(one_shot_at_most_once Group.counters).1 [1, 2] _ 1 (by decide),
   ((one_shot_at_most_once Group.textReveal).2.1 ⟨[1, 2], []⟩ [⟨1, true⟩] 1
      (by decide) (by decide) (by decide)).2,
   ((one_shot_at_most_once Group.progressBars).2.2 ⟨[1, 2], []⟩ [⟨1, false⟩] 1
      (by decide)).1⟩

end JS

namespace ScrollTrigger

open JS

/-- C6 (the code at the failing input): a timeline item that scrolls into view, out of
view and into view again has its callback invoked twice, and it is still an observation
target and still registered afterwards. -/
theorem callback_invoked_twice :
    (run [1] [] [] [[⟨1, true⟩], [⟨1, false⟩], [⟨1, true⟩]]).invocations 1 = 2 ∧
    (run [1] [] [] [[⟨1, true⟩], [⟨1, false⟩], [⟨1, true⟩]]).invoked
      = [(1, ⟨"timeline-reveal", 0⟩), (1, ⟨"timeline-reveal", 0⟩)] ∧
    (run [1] [] [] [[⟨1, true⟩], [⟨1, false⟩], [⟨1, true⟩]]).targets = [1] ∧
    mapGet (run [1] [] [] [[⟨1, true⟩], [⟨1, false⟩], [⟨1, true⟩]]).elements 1
      = some ⟨"timeline-reveal", 0⟩ := by
  decide

end ScrollTrigger

/-! ## Theme manager: storage failures and system changes -/

namespace ThemeManager

open JS

theorem toggleThemeResult_eq (st : State) (w : Bool) :
    toggleThemeResult st w = Except.ok (toggleTheme st w) := by
  cases w <;> rfl

theorem loadSavedThemeResult_eq (st : State) (r : Bool) (mm : Option Bool) :
    loadSavedThemeResult st r mm = Except.ok (loadSavedTheme st r mm) := by
  cases r
  · cases hs : st.stored with
    | none =>
      simp [loadSavedThemeResult, loadSavedThemeTry, loadSavedTheme, getItem, hs, tryCatch,
        tryCatchThe, MonadExceptOf.tryCatch, Except.tryCatch, bind, Except.bind, pure,
        Except.pure]
    | some v =>
      cases hv : jsTruthy (some v) <;>
      simp [loadSavedThemeResult, loadSavedThemeTry, loadSavedTheme, getItem, hs, hv, tryCatch,
        tryCatchThe, MonadExceptOf.tryCatch, Except.tryCatch, bind, Except.bind, pure,
        Except.pure]
  · rfl

/-- C11: `toggleTheme` returns normally whether or not the storage write throws, and the
active theme on return is the toggled theme; when the write succeeds the stored value equals
that theme, and when it throws the stored value is left as it was. -/
theorem toggleTheme_persists (st : State) (writeThrows : Bool) :
    toggleThemeResult st writeThrows = Except.ok (toggleTheme st writeThrows) ∧
    (toggleTheme st writeThrows).active = some (toggled st) ∧
    (writeThrows = false →
      (toggleTheme st writeThrows).stored = (toggleTheme st writeThrows).active) ∧
    (writeThrows = true → (toggleTheme st writeThrows).stored = st.stored) := by
  refine ⟨toggleThemeResult_eq st writeThrows, ?_, ?_, ?_⟩
  · cases writeThrows <;> rfl
  · intro h; subst h; rfl
  · intro h; subst h; rfl

theorem toggleTheme_persists_witness :
    (toggleTheme (State.mk (some "light") none none) false).stored = some "dark" ∧
    (toggleTheme (State.mk (some "light") none (some "light")) true).stored = some "light" :=
  ⟨((toggleTheme_persists (State.mk (some "light") none none) false).2.2.1 rfl).trans
      (by decide),
   (toggleTheme_persists (State.mk (some "light") none (some "light")) true).2.2.2 rfl⟩

/-- C12 (the code at the failing input): when reading local storage throws, the system
colour-scheme change listener ends with the exception, whatever the state and the event,
while startup and toggle return normally under the same failure. -/
theorem system_change_listener_throws :
    onSystemChange (State.mk (some "light") (some "#f8f9fa") none) true true
      = Except.error () ∧
    (∀ st isDark, onSystemChange st isDark true = Except.error ()) ∧
    (∀ st mm, loadSavedThemeResult st true mm
      = Except.ok (setTheme st (getSystemTheme mm))) ∧
    (∀ st, toggleThemeResult st true
      = Except.ok (setTheme st (toggled st))) := by
  refine ⟨rfl, fun _ _ => rfl, fun _ _ => rfl, fun _ => rfl⟩

/-- C13 (as stated, refuted): with no persisted preference and the active theme `light`, a
system change to dark makes the active theme `dark`. -/
theorem system_change_counterexample :
    (State.mk (some "light") (some "#f8f9fa") none).active = some "light" ∧
    (step true (State.mk (some "light") (some "#f8f9fa") none)
      (Event.systemChange true false)).active = some "dark" := by
  decide

/-- C13 (amended): a system colour-scheme change leaves the active theme unchanged in every
state with a non-empty persisted preference, and also when the storage read throws or no
listener is installed; in a state without persisted preference (absent or empty) the
listener sets the active theme to the scheme of the event. -/
theorem system_change_effect (watching : Bool) (st : State) (isDark readThrows : Bool) :
    ((∃ v, st.stored = some v ∧ v ≠ "") →
      (step watching st (Event.systemChange isDark readThrows)).active = st.active) ∧
    (readThrows = true →
      (step watching st (Event.systemChange isDark readThrows)).active = st.active) ∧
    (watching = false →
      (step watching st (Event.systemChange isDark readThrows)).active = st.active) ∧
    (watching = true → readThrows = false → (st.stored = none ∨ st.stored = some "") →
      (step watching st (Event.systemChange isDark readThrows)).active
        = some (if isDark then "dark" else "light")) := by
  refine ⟨?_, ?_, ?_, ?_⟩
  · rintro ⟨v, hs, hv⟩
    have ht : jsTruthy st.stored = true := by rw [hs]; exact jsTruthy_some_of_ne_empty v hv
    cases watching <;> cases readThrows <;> simp [step, onSystemChange, getItem, ht]
  · intro h; subst h
    cases watching <;> simp [step, onSystemChange, getItem]
  · intro h; subst h
    simp [step]
  · intro hw hr hs
    subst hw; subst hr
    have ht : jsTruthy st.stored = false := by
      rcases hs with hs | hs <;> rw [hs] <;> rfl
    simp [step, onSystemChange, getItem, ht, setTheme_active]

theorem system_change_effect_witness :
    (step true (State.mk (some "light") none (some "light"))
      (Event.systemChange true false)).active = some "light" ∧
    (step true (State.mk (some "light") none none)
      (Event.systemChange true false)).active = some "dark" :=
  ⟨(system_change_effect true (State.mk (some "light") none (some "light")) true false).1
      ⟨"light", rfl, by decide⟩,
   (system_change_effect true (State.mk (some "light") none none) true false).2.2.2
      rfl rfl (Or.inl rfl)⟩

end ThemeManager

/-! ## Particles: update step and randomisation ranges -/

namespace ParticleSystem

theorem ticks_decay (ts : List (Viewport × ResetDraws)) (p : Particle) :
    (ticks p ts).decay = p.decay := by
  induction ts generalizing p with
  | nil => rfl
  | cons t ts ih =>
    have h : ticks p (t :: ts) = ticks (updateParticle p t.1 t.2) ts := rfl
    rw [h, ih, updateParticle_decay]

theorem outOfBoundsOrDead_eq_false (q : Particle) (vp : Viewport)
    (h : 0 ≤ q.x ∧ q.x ≤ vp.innerWidth ∧ 0 ≤ q.y ∧ q.y ≤ vp.innerHeight ∧ 0 < q.life) :
    outOfBoundsOrDead q vp = false := by
  obtain ⟨h1, h2, h3, h4, h5⟩ := h
  simp [outOfBoundsOrDead, not_lt.2 h1, not_lt.2 h2, not_lt.2 h3, not_lt.2 h4, h5]

theorem outOfBoundsOrDead_eq_true (q : Particle) (vp : Viewport)
    (h : q.x < 0 ∨ q.x > vp.innerWidth ∨ q.y < 0 ∨ q.y > vp.innerHeight ∨ q.life ≤ 0) :
    outOfBoundsOrDead q vp = true := by
  simp only [outOfBoundsOrDead, Bool.or_eq_true, decide_eq_true_eq]
  tauto

/-- C14: `updateParticle` adds the velocity to the position and subtracts the decay from
the life; when the new position lies in [0,width]×[0,height] and the new life is positive
the result is exactly that, all other fields unchanged, and the life has strictly decreased
(every particle of the field has a positive decay); otherwise the particle is reset in
place: position, velocity and opacity come from fresh draws, life is 1, size and decay are
kept. -/
theorem updateParticle_spec (p : Particle) (vp : Viewport) (r : ResetDraws) :
    ((0 ≤ p.x + p.vx ∧ p.x + p.vx ≤ vp.innerWidth ∧
      0 ≤ p.y + p.vy ∧ p.y + p.vy ≤ vp.innerHeight ∧ 0 < p.life - p.decay) →
      updateParticle p vp r
        = { p with x := p.x + p.vx, y := p.y + p.vy, life := p.life - p.decay } ∧
      (0 < p.decay → (updateParticle p vp r).life < p.life)) ∧
    ((p.x + p.vx < 0 ∨ p.x + p.vx > vp.innerWidth ∨
      p.y + p.vy < 0 ∨ p.y + p.vy > vp.innerHeight ∨ p.life - p.decay ≤ 0) →
      updateParticle p vp r
        = { x := r.rx * vp.innerWidth
            y := r.ry * vp.innerHeight
            vx := (r.rvx - 0.5) * 0.5
            vy := (r.rvy - 0.5) * 0.5
            size := p.size
            opacity := r.ropacity * 0.5 + 0.1
            life := 1
            decay := p.decay }) ∧
    (∀ (vp0 : Viewport) (r0 : CreateDraws) (ts : List (Viewport × ResetDraws)),
      r0.Valid → 0 < (ticks (createParticle vp0 r0) ts).decay) := by
  refine ⟨?_, ?_, ?_⟩
  · intro h
    have hb : outOfBoundsOrDead
        { p with x := p.x + p.vx, y := p.y + p.vy, life := p.life - p.decay } vp = false :=
      outOfBoundsOrDead_eq_false _ vp h
    have he : updateParticle p vp r
        = { p with x := p.x + p.vx, y := p.y + p.vy, life := p.life - p.decay } := by
      simp only [updateParticle]
      rw [if_neg (by rw [hb]; exact Bool.false_ne_true)]
    refine ⟨he, fun hd => ?_⟩
    rw [he]
    show p.life - p.decay < p.life
    linarith
  · intro h
    have hb : outOfBoundsOrDead
        { p with x := p.x + p.vx, y := p.y + p.vy, life := p.life - p.decay } vp = true :=
      outOfBoundsOrDead_eq_true _ vp h
    simp only [updateParticle]
    rw [if_pos hb]
    rfl
  · intro vp0 r0 ts h0
    rw [ticks_decay]
    have := (createParticle_decay vp0 r0 h0).1
    have h1 : (0 : ℚ) < 0.001 := by norm_num
    linarith

theorem updateParticle_spec_witness :
    (updateParticle ⟨10, 10, 1, 1, 2, 1/2, 1, 1/100⟩ ⟨1000, 800⟩ ⟨0, 0, 0, 0, 0⟩).life < 1 ∧
    (updateParticle ⟨10, 10, -20, 1, 2, 1/2, 1, 1/100⟩ ⟨1000, 800⟩
      ⟨1/2, 1/2, 1/2, 1/2, 1/2⟩).life = 1 :=
  ⟨((updateParticle_spec ⟨10, 10, 1, 1, 2, 1/2, 1, 1/100⟩ ⟨1000, 800⟩ ⟨0, 0, 0, 0, 0⟩).1
      (by norm_num)).2 (by norm_num),
   by
    rw [(updateParticle_spec ⟨10, 10, -20, 1, 2, 1/2, 1, 1/100⟩ ⟨1000, 800⟩
      ⟨1/2, 1/2, 1/2, 1/2, 1/2⟩).2.1 (Or.inl (by norm_num))]⟩

/-- C17: with draws in [0,1) and a viewport of non-negative size, a particle built by
`createParticle` has its position within the viewport, each velocity component in
[-0.25, 0.25], size in [1, 4], opacity in [0.1, 0.6], decay in [0.001, 0.006] and life 1;
`resetParticle` re-draws position, velocity and opacity within the same ranges and sets
life to 1. -/
theorem randomisation_ranges (vp : Viewport) (c : CreateDraws) (p : Particle) (r : ResetDraws)
    (hw : 0 ≤ vp.innerWidth) (hh : 0 ≤ vp.innerHeight) (hc : c.Valid) (hr : r.Valid) :
    (0 ≤ (createParticle vp c).x ∧ (createParticle vp c).x ≤ vp.innerWidth ∧
     0 ≤ (createParticle vp c).y ∧ (createParticle vp c).y ≤ vp.innerHeight ∧
     -0.25 ≤ (createParticle vp c).vx ∧ (createParticle vp c).vx ≤ 0.25 ∧
     -0.25 ≤ (createParticle vp c).vy ∧ (createParticle vp c).vy ≤ 0.25 ∧
     1 ≤ (createParticle vp c).size ∧ (createParticle vp c).size ≤ 4 ∧
     0.1 ≤ (createParticle vp c).opacity ∧ (createParticle vp c).opacity ≤ 0.6 ∧
     0.001 ≤ (createParticle vp c).decay ∧ (createParticle vp c).decay ≤ 0.006 ∧
     (createParticle vp c).life = 1) ∧
    (0 ≤ (resetParticle p vp r).x ∧ (resetParticle p vp r).x ≤ vp.innerWidth ∧
     0 ≤ (resetParticle p vp r).y ∧ (resetParticle p vp r).y ≤ vp.innerHeight ∧
     -0.25 ≤ (resetParticle p vp r).vx ∧ (resetParticle p vp r).vx ≤ 0.25 ∧
     -0.25 ≤ (resetParticle p vp r).vy ∧ (resetParticle p vp r).vy ≤ 0.25 ∧
     0.1 ≤ (resetParticle p vp r).opacity ∧ (resetParticle p vp r).opacity ≤ 0.6 ∧
     (resetParticle p vp r).life = 1 ∧
     (resetParticle p vp r).size = p.size ∧ (resetParticle p vp r).decay = p.decay) := by
  have hw1 : (0 : ℚ) ≤ (vp.innerWidth : ℚ) := by exact_mod_cast hw
  have hh1 : (0 : ℚ) ≤ (vp.innerHeight : ℚ) := by exact_mod_cast hh
  obtain ⟨⟨cx0, cx1⟩, ⟨cy0, cy1⟩, ⟨cvx0, cvx1⟩, ⟨cvy0, cvy1⟩, ⟨cs0, cs1⟩, ⟨co0, co1⟩,
    ⟨cd0, cd1⟩⟩ := hc
  obtain ⟨⟨rx0, rx1⟩, ⟨ry0, ry1⟩, ⟨rvx0, rvx1⟩, ⟨rvy0, rvy1⟩, ⟨ro0, ro1⟩⟩ := hr
  constructor
  · simp only [createParticle]
    refine ⟨mul_nonneg cx0 hw1, mul_le_of_le_one_left hw1 cx1.le, mul_nonneg cy0 hh1,
      mul_le_of_le_one_left hh1 cy1.le, ?_, ?_, ?_, ?_, ?_, ?_, ?_, ?_, ?_, ?_, trivial⟩ <;>
      norm_num <;> linarith
  · simp only [resetParticle]
    refine ⟨mul_nonneg rx0 hw1, mul_le_of_le_one_left hw1 rx1.le, mul_nonneg ry0 hh1,
      mul_le_of_le_one_left hh1 ry1.le, ?_, ?_, ?_, ?_, ?_, ?_, trivial, trivial, trivial⟩ <;>
      norm_num <;> linarith

theorem randomisation_ranges_witness :
    (createParticle ⟨1000, 800⟩ ⟨1/2, 1/2, 0, 3/4, 1/2, 1/2, 1/2⟩).vx = -1/4 ∧
    -0.25 ≤ (createParticle ⟨1000, 800⟩ ⟨1/2, 1/2, 0, 3/4, 1/2, 1/2, 1/2⟩).vx ∧
    (createParticle ⟨1000, 800⟩ ⟨1/2, 1/2, 0, 3/4, 1/2, 1/2, 1/2⟩).size ≤ 4 :=
  ⟨by norm_num [createParticle],
   (randomisation_ranges ⟨1000, 800⟩ ⟨1/2, 1/2, 0, 3/4, 1/2, 1/2, 1/2⟩
      ⟨0, 0, 0, 0, 0, 0, 0, 0⟩ ⟨0, 0, 0, 0, 0⟩ (by decide) (by decide)
      (by norm_num [CreateDraws.Valid, IsDraw])
      (by norm_num [ResetDraws.Valid, IsDraw])).1.2.2.2.2.1,
   (randomisation_ranges ⟨1000, 800⟩ ⟨1/2, 1/2, 0, 3/4, 1/2, 1/2, 1/2⟩
      ⟨0, 0, 0, 0, 0, 0, 0, 0⟩ ⟨0, 0, 0, 0, 0⟩ (by decide) (by decide)
      (by norm_num [CreateDraws.Valid, IsDraw])
      (by norm_num [ResetDraws.Valid, IsDraw])).1.2.2.2.2.2.2.2.2.2.1⟩

end ParticleSystem

/-! ## The particle field: proofs -/

namespace ParticleSystem

theorem foldl_push_eq_map {α β : Type} (g : α → β) (l : List α) (init : List β) :
    l.foldl (fun ps i => ps ++ [g i]) init = init ++ l.map g := by
  induction l generalizing init with
  | nil => simp
  | cons a l ih => simp [ih]

theorem createParticles_particles (f : Field) (draws : ℕ → CreateDraws) :
    (createParticles f draws).particles
      = (List.range f.particleCount).map (fun i => createParticle f.window (draws i)) := by
  simp [createParticles, foldl_push_eq_map]

theorem createParticles_length (f : Field) (draws : ℕ → CreateDraws) :
    (createParticles f draws).particles.length = f.particleCount := by
  simp [createParticles_particles]

theorem animate_length (f : Field) (draws : ℕ → ResetDraws) :
    (animate f draws).particles.length = f.particles.length := by
  simp [animate]

theorem animate_particleCount (f : Field) (draws : ℕ → ResetDraws) :
    (animate f draws).particleCount = f.particleCount := rfl

theorem foldl_animate_inv {α : Type} (draws : ℕ → ResetDraws) (reqs : List α) (f : Field) :
    (reqs.foldl (fun g _ => animate g draws) f).particles.length = f.particles.length ∧
    (reqs.foldl (fun g _ => animate g draws) f).particleCount = f.particleCount := by
  induction reqs generalizing f with
  | nil => exact ⟨rfl, rfl⟩
  | cons a reqs ih =>
    have h := ih (animate f draws)
    simp only [List.foldl_cons]
    rw [h.1, h.2, animate_length, animate_particleCount]
    exact ⟨rfl, rfl⟩

theorem frame_inv (f : Field) (draws : ℕ → ResetDraws) :
    (fieldStep f (FieldEvent.frame draws)).particles.length = f.particles.length ∧
    (fieldStep f (FieldEvent.frame draws)).particleCount = f.particleCount := by
  have h := foldl_animate_inv draws f.frameRequests { f with frameRequests := [] }
  exact h

theorem frames_inv (frames : List (ℕ → ResetDraws)) (f : Field) :
    (fieldRun f (frames.map FieldEvent.frame)).particles.length = f.particles.length ∧
    (fieldRun f (frames.map FieldEvent.frame)).particleCount = f.particleCount := by
  induction frames generalizing f with
  | nil => exact ⟨rfl, rfl⟩
  | cons d ds ih =>
    have h1 := frame_inv f d
    have h2 := ih (fieldStep f (FieldEvent.frame d))
    simp only [fieldRun, List.map_cons, List.foldl_cons] at h2 ⊢
    rw [h2.1, h2.2, h1.1, h1.2]
    exact ⟨rfl, rfl⟩

theorem construct_inv (vp : Viewport) (cd : ℕ → CreateDraws) (rd : ℕ → ResetDraws) :
    (construct vp cd rd).particles.length = getParticleCount vp.innerWidth ∧
    (construct vp cd rd).particleCount = getParticleCount vp.innerWidth := by
  simp only [construct]
  rw [animate_length, createParticles_length, animate_particleCount]
  exact ⟨rfl, rfl⟩

/-- C15: `createParticles` yields exactly `particleCount` particles, an `animate` tick
leaves the number of particles unchanged, and after construction and any number of refresh
ticks the collection has exactly `particleCount` members, the count chosen for the width at
construction. -/
theorem collection_size_constant :
    (∀ (f : Field) (draws : ℕ → CreateDraws),
      (createParticles f draws).particles.length = f.particleCount) ∧
    (∀ (f : Field) (draws : ℕ → ResetDraws),
      (animate f draws).particles.length = f.particles.length) ∧
    (∀ (f : Field) (draws : ℕ → ResetDraws),
      (fieldStep f (FieldEvent.frame draws)).particles.length = f.particles.length) ∧
    (∀ (vp : Viewport) (cd : ℕ → CreateDraws) (rd : ℕ → ResetDraws)
        (frames : List (ℕ → ResetDraws)),
      (fieldRun (construct vp cd rd) (frames.map FieldEvent.frame)).particles.length
        = (fieldRun (construct vp cd rd) (frames.map FieldEvent.frame)).particleCount ∧
      (fieldRun (construct vp cd rd) (frames.map FieldEvent.frame)).particleCount
        = getParticleCount vp.innerWidth) := by
  refine ⟨createParticles_length, animate_length, fun f d => (frame_inv f d).1, ?_⟩
  intro vp cd rd frames
  have h1 := frames_inv frames (construct vp cd rd)
  have h2 := construct_inv vp cd rd
  rw [h1.1, h1.2, h2.1, h2.2]
  exact ⟨rfl, rfl⟩

theorem resized_eq (f : Field) (vp : Viewport) (draws : ℕ → CreateDraws) :
    resized f vp draws
      = resizeHandler { f with window := vp, resizeTimer := false } draws := by
  simp [resized, fieldStep]

/-- C16: after a resize to a new window size (once the debounce delay has expired), the
collection is rebuilt from scratch, as `getParticleCount(newWidth)` freshly created
particles, iff that count differs from the current `particleCount`; when it is equal,
`particleCount` and every particle are unchanged; in both cases `particleCount` is
`getParticleCount(newWidth)` afterwards, and the collection has exactly that many members
(given that it had `particleCount` members before, as every running field has). -/
theorem resize_rebuilds (f : Field) (vp : Viewport) (draws : ℕ → CreateDraws) :
    (getParticleCount vp.innerWidth ≠ f.particleCount →
      (resized f vp draws).particles
        = (List.range (getParticleCount vp.innerWidth)).map
            (fun i => createParticle vp (draws i))) ∧
    (getParticleCount vp.innerWidth = f.particleCount →
      (resized f vp draws).particles = f.particles ∧
      (resized f vp draws).particleCount = f.particleCount) ∧
    (resized f vp draws).particleCount = getParticleCount vp.innerWidth ∧
    (f.particles.length = f.particleCount →
      (resized f vp draws).particles.length = getParticleCount vp.innerWidth) := by
  rw [resized_eq]
  by_cases h : getParticleCount vp.innerWidth = f.particleCount
  · have he : resizeHandler { f with window := vp, resizeTimer := false } draws
        = { f with window := vp, resizeTimer := false } := by
      simp [resizeHandler, h]
    rw [he]
    refine ⟨fun h1 => absurd h h1, fun _ => ⟨rfl, rfl⟩, h.symm, fun h2 => ?_⟩
    show f.particles.length = _
    rw [h2, h]
  · refine ⟨fun _ => ?_, fun h1 => absurd h1 h, ?_, fun _ => ?_⟩
    · simp [resizeHandler, h, createParticles_particles]
    · simp [resizeHandler, h, createParticles]
    · simp [resizeHandler, h, createParticles_particles]

theorem resize_rebuilds_witness :
    (resized (construct ⟨1400, 900⟩ halfCreate halfReset) ⟨500, 900⟩ halfCreate).particles.length
      = 30 :=
  ((resize_rebuilds (construct ⟨1400, 900⟩ halfCreate halfReset) ⟨500, 900⟩ halfCreate).2.2.2
    (by
      have h := construct_inv ⟨1400, 900⟩ halfCreate halfReset
      rw [h.1, h.2])).trans (by decide)

/-- C19 (the code at the failing input): after `destroy()` the collection is empty and no
frame request is outstanding, but a debounce timeout that was pending stays pending, and a
later resize from width 1400 to width 500 refills the destroyed field with 30 particles. -/
theorem destroy_not_final :
    (destroy (construct ⟨1400, 900⟩ halfCreate halfReset)).particles = [] ∧
    (destroy (construct ⟨1400, 900⟩ halfCreate halfReset)).frameRequests = [] ∧
    (fieldRun (construct ⟨1400, 900⟩ halfCreate halfReset)
      [FieldEvent.resize ⟨500, 900⟩, FieldEvent.destroy]).resizeTimer = true ∧
    (fieldRun (construct ⟨1400, 900⟩ halfCreate halfReset)
      [FieldEvent.resize ⟨500, 900⟩, FieldEvent.destroy,
       FieldEvent.timeout halfCreate]).particles.length = 30 ∧
    (fieldRun (construct ⟨1400, 900⟩ halfCreate halfReset)
      [FieldEvent.destroy, FieldEvent.resize ⟨500, 900⟩,
       FieldEvent.timeout halfCreate]).particles.length = 30 := by
  have hc : (construct ⟨1400, 900⟩ halfCreate halfReset).particleCount = 80 := by
    rw [(construct_inv _ _ _).2]; decide
  have hd : ∀ f : Field, (destroy f).particleCount = f.particleCount := by
    intro f
    unfold destroy
    cases f.animationId with
    | none => rfl
    | some id => by_cases h : id ≠ 0 <;> simp [h]
  have hw : ∀ f : Field, (destroy f).window = f.window := by
    intro f
    unfold destroy
    cases f.animationId with
    | none => rfl
    | some id => by_cases h : id ≠ 0 <;> simp [h]
  have ht : ∀ f : Field, (destroy f).resizeTimer = f.resizeTimer := by
    intro f
    unfold destroy
    cases f.animationId with
    | none => rfl
    | some id => by_cases h : id ≠ 0 <;> simp [h]
  refine ⟨rfl, ?_, ?_, ?_, ?_⟩
  · simp [destroy, construct, animate, createParticles]
  · simp only [fieldRun, List.foldl_cons, List.foldl_nil, fieldStep]
    rw [ht]
  · simp only [fieldRun, List.foldl_cons, List.foldl_nil]
    have h1 : (fieldStep (fieldStep (construct ⟨1400, 900⟩ halfCreate halfReset)
        (FieldEvent.resize ⟨500, 900⟩)) FieldEvent.destroy).resizeTimer = true := by
      simp only [fieldStep]; rw [ht]
    have h2 : (fieldStep (fieldStep (construct ⟨1400, 900⟩ halfCreate halfReset)
        (FieldEvent.resize ⟨500, 900⟩)) FieldEvent.destroy).particleCount = 80 := by
      simp only [fieldStep]; rw [hd]; exact hc
    have h3 : (fieldStep (fieldStep (construct ⟨1400, 900⟩ halfCreate halfReset)
        (FieldEvent.resize ⟨500, 900⟩)) FieldEvent.destroy).window = ⟨500, 900⟩ := by
      simp only [fieldStep]; rw [hw]
    generalize fieldStep (fieldStep (construct ⟨1400, 900⟩ halfCreate halfReset)
        (FieldEvent.resize ⟨500, 900⟩)) FieldEvent.destroy = g at h1 h2 h3
    have h4 : getParticleCount g.window.innerWidth = 30 := by rw [h3]; decide
    simp only [fieldStep, h1, if_true, resizeHandler, h4, h2]
    rw [if_pos (by decide), createParticles_length]
  · simp only [fieldRun, List.foldl_cons, List.foldl_nil]
    have h2 : (fieldStep (construct ⟨1400, 900⟩ halfCreate halfReset)
        FieldEvent.destroy).particleCount = 80 := by
      simp only [fieldStep]; rw [hd]; exact hc
    generalize fieldStep (construct ⟨1400, 900⟩ halfCreate halfReset)
        FieldEvent.destroy = g at h2
    simp only [fieldStep, if_true, resizeHandler, h2]
    rw [if_pos (by decide), createParticles_length]
    show getParticleCount 500 = 30
    decide

end ParticleSystem

/-! ## Easing functions: proofs -/

namespace CounterAnimation

open JS

theorem easeOutQuart_mono (p q : ℚ) (hp : p ≤ q) (hq : q ≤ 1) :
    easeOutQuart p ≤ easeOutQuart q := by
  unfold easeOutQuart
  have h : (1 - q) ^ 4 ≤ (1 - p) ^ 4 := pow_le_pow_left₀ (by linarith) (by linarith) 4
  linarith

theorem easeOutCubic_mono (p q : ℚ) (hp : p ≤ q) (hq : q ≤ 1) :
    ProgressBarAnimation.easeOutCubic p ≤ ProgressBarAnimation.easeOutCubic q := by
  unfold ProgressBarAnimation.easeOutCubic
  have h : (1 - q) ^ 3 ≤ (1 - p) ^ 3 := pow_le_pow_left₀ (by linarith) (by linarith) 3
  linarith

/-- C18: the quartic ease-out used by `updateCounter` and the cubic ease-out used by
`updateProgress` are bounded easings: for every p in [0,1] the eased value lies in [0,1],
each maps 0 to 0 and 1 to 1, and each is non-decreasing on [0,1]. -/
theorem easings_bounded_monotone (p q : ℚ) :
    (∀ (c : Counter) (el : Animated ℤ) (t : ℚ),
      (updateCounter c el t).writes
        = el.writes ++
          ⌊(c.start : ℚ) + ((c.target - c.start : ℤ) : ℚ) * easeOutQuart (progress c t)⌋ ::
            (if progress c t < 1 then [] else [c.target])) ∧
    (∀ (b : ProgressBarAnimation.Bar) (el : Animated ℚ) (t : ℚ),
      (ProgressBarAnimation.updateProgress b el t).writes
        = el.writes ++ [(b.progress : ℚ)
            * ProgressBarAnimation.easeOutCubic (ProgressBarAnimation.progressPercent b t)]) ∧
    easeOutQuart 0 = 0 ∧ easeOutQuart 1 = 1 ∧
    ProgressBarAnimation.easeOutCubic 0 = 0 ∧ ProgressBarAnimation.easeOutCubic 1 = 1 ∧
    (0 ≤ p → p ≤ 1 →
      0 ≤ easeOutQuart p ∧ easeOutQuart p ≤ 1 ∧
      0 ≤ ProgressBarAnimation.easeOutCubic p ∧ ProgressBarAnimation.easeOutCubic p ≤ 1) ∧
    (0 ≤ p → p ≤ q → q ≤ 1 →
      easeOutQuart p ≤ easeOutQuart q ∧
      ProgressBarAnimation.easeOutCubic p ≤ ProgressBarAnimation.easeOutCubic q) := by
  have q0 : easeOutQuart 0 = 0 := by norm_num [easeOutQuart]
  have q1 : easeOutQuart 1 = 1 := by norm_num [easeOutQuart]
  have c0 : ProgressBarAnimation.easeOutCubic 0 = 0 := by
    norm_num [ProgressBarAnimation.easeOutCubic]
  have c1 : ProgressBarAnimation.easeOutCubic 1 = 1 := by
    norm_num [ProgressBarAnimation.easeOutCubic]
  refine ⟨?_, ?_, q0, q1, c0, c1, ?_, ?_⟩
  · intro c el t
    by_cases h : progress c t < 1
    · simp [updateCounter, easeOutQuart, h]
    · simp [updateCounter, easeOutQuart, h]
  · intro b el t
    by_cases h : ProgressBarAnimation.progressPercent b t < 1
    · simp [ProgressBarAnimation.updateProgress, ProgressBarAnimation.easeOutCubic, h]
    · simp [ProgressBarAnimation.updateProgress, ProgressBarAnimation.easeOutCubic, h]
  · intro h0 h1
    have a := easeOutQuart_mono 0 p h0 h1
    have b := easeOutQuart_mono p 1 h1 le_rfl
    have c := easeOutCubic_mono 0 p h0 h1
    have d := easeOutCubic_mono p 1 h1 le_rfl
    rw [q0] at a; rw [q1] at b; rw [c0] at c; rw [c1] at d
    exact ⟨a, b, c, d⟩
  · intro _ h1 h2
    exact ⟨easeOutQuart_mono p q h1 h2, easeOutCubic_mono p q h1 h2⟩

theorem easings_bounded_monotone_witness :
    easeOutQuart (1/2) ≤ 1 ∧
    ProgressBarAnimation.easeOutCubic (1/2) ≤ ProgressBarAnimation.easeOutCubic (3/4) :=
  ⟨((easings_bounded_monotone (1/2) (3/4)).2.2.2.2.2.2.1 (by norm_num) (by norm_num)).2.1,
   ((easings_bounded_monotone (1/2) (3/4)).2.2.2.2.2.2.2 (by norm_num) (by norm_num)
      (by norm_num)).2⟩

end CounterAnimation

/-! ## Magnetic pointer effects: proofs -/

namespace MagneticEffect

open JS

/-- C20: on a pointer move both magnetic effects write the translation
strength × (pointerX − centreX, pointerY − centreY) with the centre at
(left + width/2, top + height/2), the strength being 0.2 in `applyMagneticEffect` and 0.3 in
`bindMagneticEffect`, both within 0.1–0.3; a pointer at the centre gives the zero
translation, and on pointer exit the translation is reset to (0, 0). -/
theorem magnetic_translation (clientX clientY : ℚ) (rect : DOMRect) :
    AnimationController.onPointer (PointerEvent.mousemove clientX clientY rect)
      = { x := AnimationController.strength * (clientX - (rect.left + rect.width / 2))
          y := AnimationController.strength * (clientY - (rect.top + rect.height / 2)) } ∧
    onPointer (PointerEvent.mousemove clientX clientY rect)
      = { x := strength * (clientX - (rect.left + rect.width / 2))
          y := strength * (clientY - (rect.top + rect.height / 2)) } ∧
    AnimationController.strength = 0.2 ∧ strength = 0.3 ∧
    0.1 ≤ AnimationController.strength ∧ AnimationController.strength ≤ 0.3 ∧
    0.1 ≤ strength ∧ strength ≤ 0.3 ∧
    AnimationController.onPointer
      (PointerEvent.mousemove (rect.left + rect.width / 2) (rect.top + rect.height / 2) rect)
      = { x := 0, y := 0 } ∧
    onPointer
      (PointerEvent.mousemove (rect.left + rect.width / 2) (rect.top + rect.height / 2) rect)
      = { x := 0, y := 0 } ∧
    AnimationController.onPointer PointerEvent.mouseleave = { x := 0, y := 0 } ∧
    onPointer PointerEvent.mouseleave = { x := 0, y := 0 } := by
  refine ⟨?_, ?_, rfl, rfl, ?_, ?_, ?_, ?_, ?_, ?_, rfl, rfl⟩
  · simp only [AnimationController.onPointer, AnimationController.applyMagneticEffect,
      Translate.mk.injEq]
    constructor <;> ring
  · simp only [onPointer, Translate.mk.injEq]
    constructor <;> ring
  · norm_num [AnimationController.strength]
  · norm_num [AnimationController.strength]
  · norm_num [strength]
  · norm_num [strength]
  · simp only [AnimationController.onPointer, AnimationController.applyMagneticEffect,
      Translate.mk.injEq]
    constructor <;> ring
  · simp only [onPointer, Translate.mk.injEq]
    constructor <;> ring

end MagneticEffect

/-! ## Theme toggle as an involution -/

namespace ThemeManager

open JS

theorem toggleTheme_active (st : State) (w : Bool) :
    (toggleTheme st w).active = some (toggled st) := by
  cases w <;> rfl

theorem toggleTheme_stored (st : State) :
    (toggleTheme st false).stored = some (toggled st) := rfl

/-- C23: `toggleTheme` makes the active theme `light` when the current theme is `dark` and
`dark` for every other current value, an unset theme included; on the themes `light` and
`dark` two consecutive toggles restore the original active theme and, when the storage write
of the second toggle succeeds, leave that theme persisted. -/
theorem toggle_involution (st : State) (w1 w2 : Bool) :
    (st.active = some "dark" → (toggleTheme st w1).active = some "light") ∧
    (st.active ≠ some "dark" → (toggleTheme st w1).active = some "dark") ∧
    (toggleTheme { st with dataTheme := none } w1).active = some "dark" ∧
    (LightOrDark st → (toggleTheme (toggleTheme st w1) w2).active = st.active) ∧
    (LightOrDark st → (toggleTheme (toggleTheme st w1) false).stored = st.active) := by
  have h1 : st.active = some "dark" → (toggleTheme st w1).active = some "light" := by
    intro h
    have h' : st.dataTheme = some "dark" := h
    rw [toggleTheme_active]; simp [toggled, h']
  have h2 : st.active ≠ some "dark" → (toggleTheme st w1).active = some "dark" := by
    intro h
    have h' : ¬ st.dataTheme = some "dark" := h
    rw [toggleTheme_active]; simp [toggled, h']
  have h3 : LightOrDark st → some (toggled (toggleTheme st w1)) = st.active := by
    intro h
    have ha : (toggleTheme st w1).dataTheme = some (toggled st) := toggleTheme_active st w1
    rcases h with h | h
    · have h' : st.dataTheme = some "light" := h
      have ht : toggled st = "dark" := by simp [toggled, h']
      rw [ht] at ha
      rw [h]
      unfold toggled
      rw [ha]
      rfl
    · have h' : st.dataTheme = some "dark" := h
      have ht : toggled st = "light" := by simp [toggled, h']
      rw [ht] at ha
      rw [h]
      unfold toggled
      rw [ha]
      rfl
  refine ⟨h1, h2, ?_, ?_, ?_⟩
  · cases w1 <;> rfl
  · intro h
    rw [toggleTheme_active]
    exact h3 h
  · intro h
    rw [toggleTheme_stored]
    exact h3 h

theorem toggle_involution_witness :
    (toggleTheme (toggleTheme (State.mk (some "light") none none) true) false).active
      = some "light" ∧
    (toggleTheme (toggleTheme (State.mk (some "dark") none none) false) false).stored
      = some "dark" ∧
    (toggleTheme (State.mk (some "dark") none none) false).active = some "light" ∧
    (toggleTheme (State.mk (some "blue") none none) false).active = some "dark" :=
  ⟨(toggle_involution (State.mk (some "light") none none) true false).2.2.2.1 (Or.inl rfl),
   (toggle_involution (State.mk (some "dark") none none) false false).2.2.2.2 (Or.inr rfl),
   (toggle_involution (State.mk (some "dark") none none) false false).1 rfl,
   (toggle_involution (State.mk (some "blue") none none) false false).2.1 (by decide)⟩

end ThemeManager

/-! ## Particles: a tick leaves a particle in bounds and alive -/

namespace ParticleSystem

/-- C24: in a viewport of non-negative size and with draws in [0,1), after `updateParticle`
the position satisfies 0 ≤ x ≤ width and 0 ≤ y ≤ height, and the life satisfies
0 < life ≤ 1 (given decay ≥ 0 and life ≤ 1 before the tick), whether or not the tick reset
the particle. -/
theorem updateParticle_in_bounds (p : Particle) (vp : Viewport) (r : ResetDraws)
    (hw : 0 ≤ vp.innerWidth) (hh : 0 ≤ vp.innerHeight) (hr : r.Valid)
    (hd : 0 ≤ p.decay) (hl : p.life ≤ 1) :
    0 ≤ (updateParticle p vp r).x ∧ (updateParticle p vp r).x ≤ vp.innerWidth ∧
    0 ≤ (updateParticle p vp r).y ∧ (updateParticle p vp r).y ≤ vp.innerHeight ∧
    0 < (updateParticle p vp r).life ∧ (updateParticle p vp r).life ≤ 1 := by
  have hlife := updateParticle_life p vp r hd hl
  refine ⟨?_, ?_, ?_, ?_, hlife.1, hlife.2⟩ <;>
  · unfold updateParticle
    simp only
    split
    · have h := resetParticle_position
        { x := p.x + p.vx, y := p.y + p.vy, vx := p.vx, vy := p.vy, size := p.size,
          opacity := p.opacity, life := p.life - p.decay, decay := p.decay } vp r hr hw hh
      first | exact h.1 | exact h.2.1 | exact h.2.2.1 | exact h.2.2.2
    · rename_i h
      simp only [outOfBoundsOrDead, Bool.or_eq_true, decide_eq_true_eq, not_or, not_le,
        not_lt, gt_iff_lt] at h
      first | exact h.1.1.1.1 | exact h.1.1.1.2 | exact h.1.1.2 | exact h.1.2

theorem updateParticle_in_bounds_witness :
    (updateParticle ⟨10, 10, -20, 1, 2, 1/2, 1, 1/100⟩ ⟨1000, 800⟩
      ⟨1/2, 1/2, 1/2, 1/2, 1/2⟩).x ≤ ((1000 : ℤ) : ℚ) ∧
    0 < (updateParticle ⟨10, 10, 1, 1, 2, 1/2, 1/200, 1/100⟩ ⟨1000, 800⟩
      ⟨1/2, 1/2, 1/2, 1/2, 1/2⟩).life :=
  ⟨(updateParticle_in_bounds ⟨10, 10, -20, 1, 2, 1/2, 1, 1/100⟩ ⟨1000, 800⟩
      ⟨1/2, 1/2, 1/2, 1/2, 1/2⟩ (by decide) (by decide)
      (by norm_num [ResetDraws.Valid, IsDraw]) (by norm_num) (by norm_num)).2.1,
   (updateParticle_in_bounds ⟨10, 10, 1, 1, 2, 1/2, 1/200, 1/100⟩ ⟨1000, 800⟩
      ⟨1/2, 1/2, 1/2, 1/2, 1/2⟩ (by decide) (by decide)
      (by norm_num [ResetDraws.Valid, IsDraw]) (by norm_num) (by norm_num)).2.2.2.2.1⟩

end ParticleSystem

/-! ## The counter never leaves the span between start and target -/

namespace CounterAnimation

open JS

theorem easeOutQuart_unit (p : ℚ) (h0 : 0 ≤ p) (h1 : p ≤ 1) :
    0 ≤ easeOutQuart p ∧ easeOutQuart p ≤ 1 := by
  have a := easeOutQuart_mono 0 p h0 h1
  have b := easeOutQuart_mono p 1 h1 le_rfl
  have q0 : easeOutQuart 0 = 0 := by norm_num [easeOutQuart]
  have q1 : easeOutQuart 1 = 1 := by norm_num [easeOutQuart]
  rw [q0] at a; rw [q1] at b
  exact ⟨a, b⟩

theorem eased_between (start target : ℤ) (e : ℚ) (h0 : 0 ≤ e) (h1 : e ≤ 1) :
    min start target ≤ ⌊(start : ℚ) + ((target - start : ℤ) : ℚ) * e⌋ ∧
    ⌊(start : ℚ) + ((target - start : ℤ) : ℚ) * e⌋ ≤ max start target := by
  push_cast
  rcases le_total start target with h | h
  · have hq : (start : ℚ) ≤ target := by exact_mod_cast h
    have ha := mul_nonneg (sub_nonneg.2 hq) h0
    have hb := mul_nonneg (sub_nonneg.2 hq) (sub_nonneg.2 h1)
    rw [min_eq_left h, max_eq_right h]
    constructor
    · apply Int.le_floor.2
      linarith
    · apply Int.floor_le_iff.2
      linarith
  · have hq : (target : ℚ) ≤ start := by exact_mod_cast h
    have ha := mul_nonneg (sub_nonneg.2 hq) h0
    have hb := mul_nonneg (sub_nonneg.2 hq) (sub_nonneg.2 h1)
    rw [min_eq_right h, max_eq_left h]
    constructor
    · apply Int.le_floor.2
      linarith
    · apply Int.floor_le_iff.2
      linarith

end CounterAnimation

namespace CounterAnimation

open JS

/-- C26: for every progress p in [0,1] and all integers start and target, the value
`floor(start + (target - start) * (1 - (1 - p)^4))` lies between start and target
inclusive, and so does every value `updateCounter` writes on a tick whose progress is not
negative. -/
theorem counter_within_bounds (c : Counter) (el : Animated ℤ) (t p : ℚ) :
    (0 ≤ p → p ≤ 1 →
      min c.start c.target
          ≤ ⌊(c.start : ℚ) + ((c.target - c.start : ℤ) : ℚ) * (1 - (1 - p) ^ 4)⌋ ∧
      ⌊(c.start : ℚ) + ((c.target - c.start : ℤ) : ℚ) * (1 - (1 - p) ^ 4)⌋
          ≤ max c.start c.target) ∧
    (0 ≤ progress c t →
      ∀ v ∈ (updateCounter c { writes := [], frameRequested := el.frameRequested } t).writes,
        min c.start c.target ≤ v ∧ v ≤ max c.start c.target) := by
  constructor
  · intro h0 h1
    have he := easeOutQuart_unit p h0 h1
    exact eased_between c.start c.target (1 - (1 - p) ^ 4) he.1 he.2
  · intro h0 v hv
    have h1 : progress c t ≤ 1 := by unfold progress; exact min_le_right _ _
    have he := easeOutQuart_unit (progress c t) h0 h1
    have hb := eased_between c.start c.target (1 - (1 - progress c t) ^ 4) he.1 he.2
    have ht : min c.start c.target ≤ c.target ∧ c.target ≤ max c.start c.target :=
      ⟨min_le_right _ _, le_max_right _ _⟩
    by_cases hlt : progress c t < 1
    · simp only [updateCounter, hlt, if_true, List.nil_append, List.mem_singleton] at hv
      rw [hv]; exact hb
    · simp only [updateCounter, hlt, if_false, List.nil_append, List.mem_append,
        List.mem_singleton] at hv
      rcases hv with hv | hv
      · rw [hv]; exact hb
      · rw [hv]; exact ht

theorem counter_within_bounds_witness :
    ⌊((0 : ℤ) : ℚ) + ((100 - 0 : ℤ) : ℚ) * (1 - (1 - 1 / 2) ^ 4)⌋ ≤ max (0 : ℤ) 100 :=
  ((counter_within_bounds ⟨100, 2000, 0, 0⟩ ⟨[], true⟩ 0 (1 / 2)).1
    (by norm_num) (by norm_num)).2

end CounterAnimation

/-! ## The interval-based counter: proofs -/

namespace Portfolio

theorem increment_eq (target : ℤ) : increment target = (target : ℚ) / 125 := by
  unfold increment; norm_num

theorem intervalRun_succ (target : ℤ) (n : ℕ) :
    intervalRun target (n + 1) = intervalTick target (intervalRun target n) := by
  unfold intervalRun
  rw [Function.iterate_succ_apply']

/-- While fewer than 125 ticks have passed, a run towards a positive target has
`current = k * target / 125`, shows the floor of it, and keeps its timer. -/
theorem intervalRun_before (target : ℤ) (ht : 0 < target) (k : ℕ) (hk : k < 125) :
    (intervalRun target k).current = (k : ℚ) * target / 125 ∧
    (intervalRun target k).timerActive = true ∧
    (1 ≤ k → (intervalRun target k).shown = some ⌊(k : ℚ) * target / 125⌋) := by
  have htq : (0 : ℚ) < (target : ℚ) := by exact_mod_cast ht
  induction k with
  | zero =>
    refine ⟨?_, rfl, fun h => absurd h (by decide)⟩
    simp [intervalRun, animateCounter]
  | succ n ih =>
    obtain ⟨hc, ha, -⟩ := ih (by omega)
    have hn : ((n : ℚ) + 1) < 125 := by exact_mod_cast hk
    have hcur : (intervalRun target n).current + increment target
        = ((n + 1 : ℕ) : ℚ) * target / 125 := by
      rw [hc, increment_eq]; push_cast; ring
    have hlt : ¬ ((n + 1 : ℕ) : ℚ) * target / 125 ≥ (target : ℚ) := by
      push_cast
      rw [ge_iff_le, not_le, div_lt_iff₀ (by norm_num)]
      nlinarith
    rw [intervalRun_succ]
    simp only [intervalTick, ha, if_true, hcur, hlt, if_false]
    refine ⟨trivial, trivial, fun _ => ?_⟩
    simp [IntervalCounter.shown]

theorem intervalRun_idle (target : ℤ) (n m : ℕ)
    (h : (intervalRun target n).timerActive = false) :
    intervalRun target (n + m) = intervalRun target n := by
  induction m with
  | zero => rfl
  | succ m ih =>
    rw [← Nat.add_assoc, intervalRun_succ, ih]
    simp [intervalTick, h]

/-- C27: for a positive integer target, in exact arithmetic, tick k < 125 displays
`floor(k * target / 125)`, a value below target that does not decrease with k, and keeps
the interval; tick 125 displays exactly target and clears the interval, after which nothing
changes; for a target ≤ 0 the first tick displays target and clears the interval. -/
theorem interval_counter_terminates (target : ℤ) :
    (0 < target →
      (∀ k, 1 ≤ k → k < 125 →
        (intervalRun target k).shown = some ⌊(k : ℚ) * target / 125⌋ ∧
        (intervalRun target k).timerActive = true ∧
        ⌊(k : ℚ) * target / 125⌋ < target) ∧
      (∀ j k : ℕ, j ≤ k → ⌊(j : ℚ) * target / 125⌋ ≤ ⌊(k : ℚ) * target / 125⌋) ∧
      (intervalRun target 125).shown = some target ∧
      (intervalRun target 125).timerActive = false ∧
      (∀ m, intervalRun target (125 + m) = intervalRun target 125)) ∧
    (target ≤ 0 →
      (intervalRun target 1).shown = some target ∧
      (intervalRun target 1).timerActive = false) := by
  constructor
  · intro ht
    have htq : (0 : ℚ) < (target : ℚ) := by exact_mod_cast ht
    have h125 : intervalRun target 125
        = { current := target
            writes := (intervalRun target 124).writes ++ [⌊(target : ℚ)⌋] ++ [target]
            timerActive := false } := by
      obtain ⟨hc, ha, -⟩ := intervalRun_before target ht 124 (by decide)
      have hcur : (intervalRun target 124).current + increment target = (target : ℚ) := by
        rw [hc, increment_eq]; push_cast; ring
      rw [intervalRun_succ]
      simp only [intervalTick, ha, if_true, hcur, ge_iff_le, le_refl]
    refine ⟨?_, ?_, ?_, ?_, ?_⟩
    · intro k h1 hk
      obtain ⟨-, ha, hs⟩ := intervalRun_before target ht k hk
      refine ⟨hs h1, ha, ?_⟩
      rw [Int.floor_lt, div_lt_iff₀ (by norm_num)]
      have hk' : (k : ℚ) < 125 := by exact_mod_cast hk
      nlinarith
    · intro j k hjk
      apply Int.floor_mono
      have hjk' : (j : ℚ) ≤ k := by exact_mod_cast hjk
      apply div_le_div_of_nonneg_right _ (by norm_num)
      nlinarith
    · rw [h125]; simp [IntervalCounter.shown]
    · rw [h125]
    · intro m
      exact intervalRun_idle target 125 m (by rw [h125])
  · intro ht
    have htq : (target : ℚ) ≤ 0 := by exact_mod_cast ht
    have hge : (0 : ℚ) + increment target ≥ (target : ℚ) := by
      rw [increment_eq, zero_add, ge_iff_le, le_div_iff₀ (by norm_num)]
      linarith
    have h1 : intervalRun target 1 = intervalTick target (animateCounter target) := rfl
    rw [h1]
    simp only [intervalTick, animateCounter, if_true, hge]
    simp [IntervalCounter.shown]

theorem interval_counter_terminates_witness :
    (intervalRun 250 3).shown = some ⌊((3 : ℕ) : ℚ) * ((250 : ℤ) : ℚ) / 125⌋ ∧
    (intervalRun 250 125).shown = some 250 ∧
    (intervalRun (-5) 1).timerActive = false :=
  ⟨(((interval_counter_terminates 250).1 (by decide)).1 3 (by decide) (by decide)).1,
   ((interval_counter_terminates 250).1 (by decide)).2.2.1,
   ((interval_counter_terminates (-5)).2 (by decide)).2⟩

end Portfolio

/-! ## The click ripple: proofs -/

namespace AnimationController

open JS

/-- C21: a click at (clientX, clientY) on an element with bounding box `rect` spawns a
square ripple of side max(width, height) whose centre is at the click coordinates relative
to the element, animated from scale 0, opacity 1 to scale 2, opacity 0 over 600 ms, appended
to the element and removed on completion, so that the children are as before the click. -/
theorem ripple_lifecycle (clientX clientY : ℚ) (rect : DOMRect) (element : Host) (span : ℕ)
    (hfresh : span ∉ element.children) :
    (createRipple clientX clientY rect element span).2.1.width = max rect.width rect.height ∧
    (createRipple clientX clientY rect element span).2.1.height
      = max rect.width rect.height ∧
    (createRipple clientX clientY rect element span).2.1.left
      + (createRipple clientX clientY rect element span).2.1.width / 2
      = clientX - rect.left ∧
    (createRipple clientX clientY rect element span).2.1.top
      + (createRipple clientX clientY rect element span).2.1.height / 2
      = clientY - rect.top ∧
    (createRipple clientX clientY rect element span).2.1.scale = 0 ∧
    (createRipple clientX clientY rect element span).2.2
      = { keyframes := [{ scale := 0, opacity := 1 }, { scale := 2, opacity := 0 }]
          duration := 600 } ∧
    (createRipple clientX clientY rect element span).1.children
      = element.children ++ [span] ∧
    (onfinish (createRipple clientX clientY rect element span).1 span).children
      = element.children := by
  refine ⟨rfl, rfl, ?_, ?_, rfl, rfl, rfl, ?_⟩
  · simp only [createRipple]; ring
  · simp only [createRipple]; ring
  · simp only [onfinish, createRipple, List.filter_append]
    have h1 : element.children.filter (fun n => decide (n ≠ span)) = element.children := by
      rw [List.filter_eq_self]
      intro a ha
      have : a ≠ span := fun h => hfresh (h ▸ ha)
      simpa using this
    rw [h1]
    simp

theorem ripple_lifecycle_witness :
    (onfinish (createRipple 30 20 ⟨10, 10, 100, 40⟩ ⟨[1, 2], none, none⟩ 3).1 3).children
      = [1, 2] :=
  (ripple_lifecycle 30 20 ⟨10, 10, 100, 40⟩ ⟨[1, 2], none, none⟩ 3 (by decide)).2.2.2.2.2.2.2

end AnimationController

/-! ## The hover scale of the custom cursor: proofs -/

namespace Portfolio

theorem removeFirst_cons (pat : List Char) (c : Char) (s : List Char) :
    removeFirst pat (c :: s)
      = if pat.isPrefixOf (c :: s) then (c :: s).drop pat.length
        else c :: removeFirst pat s := rfl

/-- Removing the first occurrence of a pattern `a :: rest` whose first character does not
recur in it, from a string in which the pattern first occurs after `u`. -/
theorem removeFirst_first_occurrence (a : Char) (rest : List Char) (ha : a ∉ rest)
    (u v : List Char) (hu : ¬ List.IsInfix (a :: rest) u) :
    removeFirst (a :: rest) (u ++ (a :: rest) ++ v) = u ++ v := by
  induction u with
  | nil =>
    have hp : (a :: rest).isPrefixOf (a :: (rest ++ v)) = true := by
      rw [List.isPrefixOf_iff_prefix]
      exact ⟨v, by simp⟩
    have hd : (a :: (rest ++ v)).drop (a :: rest).length = v := by
      have : a :: (rest ++ v) = (a :: rest) ++ v := by simp
      rw [this, List.drop_left]
    simp only [List.nil_append, List.cons_append]
    rw [removeFirst_cons, if_pos hp, hd]
  | cons c u ih =>
    have hu1 : ¬ List.IsInfix (a :: rest) u := by
      intro h
      apply hu
      obtain ⟨x, y, hxy⟩ := h
      exact ⟨c :: x, y, by simp [← hxy]⟩
    have hnp : (a :: rest).isPrefixOf (c :: (u ++ (a :: rest) ++ v)) = false := by
      rw [Bool.eq_false_iff]
      intro hp
      rw [List.isPrefixOf_iff_prefix] at hp
      obtain ⟨w, hw⟩ := hp
      have hw1 : (a :: rest) ++ w = (c :: u) ++ ((a :: rest) ++ v) := by
        rw [hw]; simp
      rcases List.append_eq_append_iff.1 hw1 with ⟨a1, h1, h2⟩ | ⟨c1, h1, h2⟩
      · exact hu ⟨[], a1, by simp [h1]⟩
      · cases c1 with
        | nil =>
          apply hu
          refine ⟨[], [], ?_⟩
          simp at h1
          simp [h1]
        | cons d c2 =>
          have hd : d = a := by
            have := h2
            simp only [List.cons_append, List.cons.injEq] at this
            exact this.1.symm
          have h3 : a :: rest = c :: (u ++ d :: c2) := by simpa using h1
          have h4 : rest = u ++ d :: c2 := (List.cons.inj h3).2
          apply ha
          rw [h4, hd]
          simp
    have he : (c :: u) ++ (a :: rest) ++ v = c :: (u ++ (a :: rest) ++ v) := by simp
    rw [he, removeFirst_cons, hnp]
    simp only [Bool.false_eq_true, if_false, List.cons_append]
    rw [ih hu1]

theorem scaleSuffix_eq : scaleSuffix = ' ' :: "scale(1.5)".data := rfl

theorem scaleSuffixes_comm (n : ℕ) :
    scaleSuffixes n ++ scaleSuffix = scaleSuffix ++ scaleSuffixes n := by
  induction n with
  | zero => simp [scaleSuffixes]
  | succ n ih => simp only [scaleSuffixes, List.append_assoc, ih]

theorem splitWs_ne_nil (s : List Char) : splitWs s ≠ [] := by
  cases s with
  | nil => simp [splitWs]
  | cons c s =>
    unfold splitWs
    split
    · simp
    · split <;> simp

theorem splitWs_word (w : List Char) (hw : ∀ c ∈ w, isCssWhiteSpace c = false) :
    splitWs w = [w] := by
  induction w with
  | nil => rfl
  | cons c w ih =>
    have hc : isCssWhiteSpace c = false := hw c (List.mem_cons_self _ _)
    have h1 := ih (fun x hx => hw x (List.mem_cons_of_mem _ hx))
    simp [splitWs, hc, h1]

theorem splitWs_append_word (s w : List Char) (hw : ∀ c ∈ w, isCssWhiteSpace c = false) :
    splitWs (s ++ ' ' :: w) = splitWs s ++ [w] := by
  induction s with
  | nil =>
    have h1 : isCssWhiteSpace ' ' = true := by decide
    simp [splitWs, h1, splitWs_word w hw]
  | cons c s ih =>
    cases h : splitWs s with
    | nil => exact absurd h (splitWs_ne_nil s)
    | cons f fs =>
      rw [h] at ih
      by_cases hc : isCssWhiteSpace c = true
      · simp [splitWs, hc, ih, h]
      · simp [splitWs, hc, ih, h]

theorem cssComponents_append_word (s w : List Char)
    (hw : ∀ c ∈ w, isCssWhiteSpace c = false) (hne : w ≠ []) :
    cssComponents (s ++ ' ' :: w) = cssComponents s ++ [w] := by
  unfold cssComponents
  rw [splitWs_append_word s w hw, List.filter_append]
  cases w with
  | nil => exact absurd rfl hne
  | cons c w => simp

theorem cssSerialize_snoc (ts : List (List Char)) (w : List Char) (hts : ts ≠ []) :
    cssSerialize (ts ++ [w]) = cssSerialize ts ++ ' ' :: w := by
  induction ts with
  | nil => exact absurd rfl hts
  | cons t ts ih =>
    cases ts with
    | nil => simp [cssSerialize]
    | cons v vs =>
      have h1 : cssSerialize (v :: (vs ++ [w])) = cssSerialize (v :: vs) ++ ' ' :: w :=
        ih (by simp)
      show t ++ ' ' :: cssSerialize (v :: (vs ++ [w]))
        = (t ++ ' ' :: cssSerialize (v :: vs)) ++ ' ' :: w
      rw [h1]
      simp

/-- Appending a further component to a non-empty serialised value gives a serialised
value. -/
theorem cssAssign_append_word (s w : List Char) (hs : cssAssign s = s) (hne : s ≠ [])
    (hw : ∀ c ∈ w, isCssWhiteSpace c = false) (hwne : w ≠ []) :
    cssAssign (s ++ ' ' :: w) = s ++ ' ' :: w := by
  have hc : cssComponents s ≠ [] := by
    intro h
    apply hne
    rw [← hs, cssAssign, h]
    rfl
  unfold cssAssign
  rw [cssComponents_append_word s w hw hwne, cssSerialize_snoc _ w hc]
  have : cssSerialize (cssComponents s) = s := hs
  rw [this]

/-- C22 (as stated, refuted): from the empty transform value the style reads back
`scale(1.5)` after mouseenter, in which the leave handler finds no ` scale(1.5)`, so
`scale(1.5)` stays; and for the serialised value
`translate(1px, 2px) scale(1.5) rotate(5deg)` the leave handler strips the earlier
occurrence, so the result is not the original value. -/
theorem cursor_roundtrip_counterexample :
    cursorEnter [] = "scale(1.5)".data ∧
    cursorLeave (cursorEnter []) = "scale(1.5)".data ∧
    cursorLeave (cursorEnter []) ≠ [] ∧
    cssAssign "translate(1px, 2px) scale(1.5) rotate(5deg)".data
      = "translate(1px, 2px) scale(1.5) rotate(5deg)".data ∧
    cursorLeave (cursorEnter "translate(1px, 2px) scale(1.5) rotate(5deg)".data)
      = "translate(1px, 2px) rotate(5deg) scale(1.5)".data ∧
    cursorLeave (cursorEnter "translate(1px, 2px) scale(1.5) rotate(5deg)".data)
      ≠ "translate(1px, 2px) scale(1.5) rotate(5deg)".data := by
  decide

/-- C22 (amended): for every non-empty transform value, as the style reads it back, that is
made of a non-empty part without ` scale(1.5)` followed by any number of copies of
` scale(1.5)`, appending ` scale(1.5)` on mouseenter and stripping its first occurrence on
mouseleave yields the value again; on mouseenter the style reads back the value with
` scale(1.5)` appended. -/
theorem cursor_roundtrip (u : List Char) (n : ℕ)
    (hu : ¬ List.IsInfix scaleSuffix u) (hne : u ≠ [])
    (hs : cssAssign (u ++ scaleSuffixes n) = u ++ scaleSuffixes n) :
    cursorEnter (u ++ scaleSuffixes n) = u ++ scaleSuffixes n ++ scaleSuffix ∧
    cursorLeave (cursorEnter (u ++ scaleSuffixes n)) = u ++ scaleSuffixes n := by
  have key : ∀ v, removeFirst scaleSuffix (u ++ scaleSuffix ++ v) = u ++ v := by
    intro v
    rw [scaleSuffix_eq] at hu ⊢
    exact removeFirst_first_occurrence ' ' _ (by decide) u v hu
  have hne1 : u ++ scaleSuffixes n ≠ [] := by
    intro h
    exact hne (List.append_eq_nil.1 h).1
  have he : cursorEnter (u ++ scaleSuffixes n) = u ++ scaleSuffixes n ++ scaleSuffix := by
    unfold cursorEnter
    rw [scaleSuffix_eq]
    exact cssAssign_append_word _ _ hs hne1 (by decide) (by decide)
  refine ⟨he, ?_⟩
  rw [he]
  unfold cursorLeave
  rw [List.append_assoc, scaleSuffixes_comm, ← List.append_assoc, key, hs]

theorem cursor_roundtrip_witness :
    cursorLeave (cursorEnter ("translate(5px, 7px)".data ++ scaleSuffixes 1))
      = "translate(5px, 7px)".data ++ scaleSuffixes 1 :=
  (cursor_roundtrip "translate(5px, 7px)".data 1 (by decide) (by decide) (by decide)).2

end Portfolio

/-! ## The email pattern: proofs -/

namespace Portfolio

open JS

theorem matchItems_nil (s : List Char) : matchItems [] s = true ↔ s = [] := by
  cases s <;> simp [matchItems]

theorem matchItems_one (p : Char → Bool) (r : List PatItem) (s : List Char) :
    matchItems (PatItem.one p :: r) s = true
      ↔ ∃ c b, s = c :: b ∧ p c = true ∧ matchItems r b = true := by
  cases s with
  | nil => simp [matchItems]
  | cons c b =>
    simp only [matchItems, Bool.and_eq_true, List.cons.injEq]
    constructor
    · rintro ⟨h1, h2⟩
      exact ⟨c, b, ⟨rfl, rfl⟩, h1, h2⟩
    · rintro ⟨c1, b1, ⟨rfl, rfl⟩, h1, h2⟩
      exact ⟨h1, h2⟩

theorem matchItems_plus (p : Char → Bool) (r : List PatItem) (s : List Char) :
    matchItems (PatItem.plus p :: r) s = true
      ↔ ∃ a b, s = a ++ b ∧ a ≠ [] ∧ (∀ c ∈ a, p c = true) ∧ matchItems r b = true := by
  induction s with
  | nil =>
    simp only [matchItems, Bool.false_eq_true, false_iff]
    rintro ⟨a, b, h, ha, -⟩
    cases a with
    | nil => exact ha rfl
    | cons x a => simp at h
  | cons c s ih =>
    simp only [matchItems, Bool.and_eq_true, Bool.or_eq_true]
    constructor
    · rintro ⟨hc, h | h⟩
      · obtain ⟨a, b, hs, -, hall, hm⟩ := ih.1 h
        refine ⟨c :: a, b, by simp [hs], by simp, ?_, hm⟩
        intro x hx
        rcases List.mem_cons.1 hx with hx | hx
        · rw [hx]; exact hc
        · exact hall x hx
      · exact ⟨[c], s, rfl, by simp, by simpa using hc, h⟩
    · rintro ⟨a, b, hs, ha, hall, hm⟩
      cases a with
      | nil => exact absurd rfl ha
      | cons x a =>
        simp only [List.cons_append, List.cons.injEq] at hs
        obtain ⟨hx, hs⟩ := hs
        subst hx
        refine ⟨hall c (List.mem_cons_self _ _), ?_⟩
        cases a with
        | nil =>
          right
          simpa [hs] using hm
        | cons y a =>
          left
          exact ih.2 ⟨y :: a, b, hs, by simp,
            fun z hz => hall z (List.mem_cons_of_mem _ hz), hm⟩

/-- The strings the pattern matches, as a decomposition. -/
theorem emailRegex_iff (s : List Char) :
    matchItems emailRegex s = true
      ↔ ∃ l a b, s = l ++ '@' :: (a ++ '.' :: b) ∧ l ≠ [] ∧ a ≠ [] ∧ b ≠ [] ∧
          (∀ c ∈ l, notSpaceAt c = true) ∧ (∀ c ∈ a, notSpaceAt c = true) ∧
          (∀ c ∈ b, notSpaceAt c = true) := by
  unfold emailRegex
  constructor
  · intro h
    obtain ⟨l, r1, hs1, hl, hall1, h1⟩ := (matchItems_plus _ _ _).1 h
    obtain ⟨c1, r2, hs2, hc1, h2⟩ := (matchItems_one _ _ _).1 h1
    obtain ⟨a, r3, hs3, ha, hall2, h3⟩ := (matchItems_plus _ _ _).1 h2
    obtain ⟨c2, r4, hs4, hc2, h4⟩ := (matchItems_one _ _ _).1 h3
    obtain ⟨b, r5, hs5, hb, hall3, h5⟩ := (matchItems_plus _ _ _).1 h4
    have h6 := (matchItems_nil _).1 h5
    have e1 : c1 = '@' := by simpa using hc1
    have e2 : c2 = '.' := by simpa using hc2
    refine ⟨l, a, b, ?_, hl, ha, hb, hall1, hall2, hall3⟩
    rw [hs1, hs2, hs3, hs4, hs5, h6, e1, e2]
    simp
  · rintro ⟨l, a, b, hs, hl, ha, hb, hall1, hall2, hall3⟩
    rw [matchItems_plus]
    refine ⟨l, _, hs, hl, hall1, ?_⟩
    rw [matchItems_one]
    refine ⟨'@', _, rfl, by simp, ?_⟩
    rw [matchItems_plus]
    refine ⟨a, _, rfl, ha, hall2, ?_⟩
    rw [matchItems_one]
    refine ⟨'.', _, rfl, by simp, ?_⟩
    rw [matchItems_plus]
    exact ⟨b, [], by simp, hb, hall3, (matchItems_nil _).2 rfl⟩

theorem notSpaceAt_iff (c : Char) :
    notSpaceAt c = true ↔ isJsWhiteSpace c = false ∧ c ≠ '@' := by
  simp [notSpaceAt]

/-- C25: the email pattern used by `validateForm` and `validateInput` accepts a string iff
it contains no white space, contains exactly one `@` with at least one character before it,
and the part after the `@` contains a `.` that is neither its first nor its last
character. -/
theorem email_pattern_shape (s : String) :
    (emailRegexTest s = true ↔ EmailShape s.data) ∧
    (∀ v : String, AnimationController.validateInput "email" v
      = emailRegexTest (String.mk (jsTrim v.data))) := by
  refine ⟨?_, fun v => by simp [AnimationController.validateInput]⟩
  unfold emailRegexTest
  rw [emailRegex_iff]
  constructor
  · rintro ⟨l, a, b, hs, hl, ha, hb, hall1, hall2, hall3⟩
    have hl0 : ∀ c ∈ l, isJsWhiteSpace c = false ∧ c ≠ '@' :=
      fun c hc => (notSpaceAt_iff c).1 (hall1 c hc)
    have ha0 : ∀ c ∈ a, isJsWhiteSpace c = false ∧ c ≠ '@' :=
      fun c hc => (notSpaceAt_iff c).1 (hall2 c hc)
    have hb0 : ∀ c ∈ b, isJsWhiteSpace c = false ∧ c ≠ '@' :=
      fun c hc => (notSpaceAt_iff c).1 (hall3 c hc)
    have cl : l.count '@' = 0 := List.count_eq_zero.2 (fun h => (hl0 _ h).2 rfl)
    have ca : a.count '@' = 0 := List.count_eq_zero.2 (fun h => (ha0 _ h).2 rfl)
    have cb : b.count '@' = 0 := List.count_eq_zero.2 (fun h => (hb0 _ h).2 rfl)
    refine ⟨?_, ?_, l, a ++ '.' :: b, hs, hl, a, b, rfl, ha, hb⟩
    · intro c hc
      rw [hs] at hc
      simp only [List.mem_append, List.mem_cons] at hc
      rcases hc with hc | hc | hc | hc | hc
      · exact (hl0 c hc).1
      · rw [hc]; decide
      · exact (ha0 c hc).1
      · rw [hc]; decide
      · exact (hb0 c hc).1
    · rw [hs]
      simp [List.count_append, List.count_cons, cl, ca, cb]
  · rintro ⟨hws, hcount, l, d, hs, hl, a, b, hd, ha, hb⟩
    have hc1 : l.count '@' + (a.count '@' + b.count '@' + 1) = 1 := by
      have := hcount
      rw [hs, hd] at this
      simpa [List.count_append, List.count_cons] using this
    have cl : l.count '@' = 0 := by omega
    have ca : a.count '@' = 0 := by omega
    have cb : b.count '@' = 0 := by omega
    have mem : ∀ c, c ∈ l ∨ c ∈ a ∨ c ∈ b → c ∈ s.data := by
      intro c hc
      rw [hs, hd]
      simp only [List.mem_append, List.mem_cons]
      tauto
    refine ⟨l, a, b, by rw [hs, hd], hl, ha, hb, ?_, ?_, ?_⟩
    · intro c hc
      exact (notSpaceAt_iff c).2 ⟨hws c (mem c (Or.inl hc)),
        fun h => List.count_eq_zero.1 cl (h ▸ hc)⟩
    · intro c hc
      exact (notSpaceAt_iff c).2 ⟨hws c (mem c (Or.inr (Or.inl hc))),
        fun h => List.count_eq_zero.1 ca (h ▸ hc)⟩
    · intro c hc
      exact (notSpaceAt_iff c).2 ⟨hws c (mem c (Or.inr (Or.inr hc))),
        fun h => List.count_eq_zero.1 cb (h ▸ hc)⟩

end Portfolio

/-! ## `splitText`: proofs -/

namespace TextEffects

open JS

theorem splitOnUnit_ne_nil (sep : ℕ) (s : List ℕ) : splitOnUnit sep s ≠ [] := by
  cases s with
  | nil => simp [splitOnUnit]
  | cons c s =>
    unfold splitOnUnit
    split
    · simp
    · split <;> simp

theorem joinWith_cons_cons (sep c : ℕ) (f : List ℕ) (fs : List (List ℕ)) :
    joinWith sep ((c :: f) :: fs) = c :: joinWith sep (f :: fs) := by
  cases fs <;> simp [joinWith]

theorem joinWith_splitOnUnit (sep : ℕ) (s : List ℕ) :
    joinWith sep (splitOnUnit sep s) = s := by
  induction s with
  | nil => rfl
  | cons c s ih =>
    cases h : splitOnUnit sep s with
    | nil => exact absurd h (splitOnUnit_ne_nil sep s)
    | cons f fs =>
      rw [h] at ih
      by_cases hc : c = sep
      · simp only [splitOnUnit, hc, if_true, h]
        simp only [joinWith, List.nil_append]
        rw [ih]
      · simp only [splitOnUnit, hc, if_false, h]
        rw [joinWith_cons_cons, ih]

theorem map_enumFrom_snd {α β : Type} (F : α → β) (l : List α) (n : ℕ) :
    (l.enumFrom n).map (fun p => F p.2) = l.map F := by
  induction l generalizing n with
  | nil => rfl
  | cons a l ih => simp [List.enumFrom, ih]

theorem splitText_contents (text : List ℕ) (attr : Option String) :
    (splitText text attr).map Span.content
      = (splitArray text (splitTypeOf attr)).map
          (fun item => if item = space then nbsp else item) := by
  unfold splitText
  simp only [List.map_map]
  exact map_enumFrom_snd (fun item => if item = space then nbsp else item) _ 0

theorem readBack_emit (item : List ℕ) (h : item ≠ nbsp) :
    readBack (if item = space then nbsp else item) = item := by
  by_cases hs : item = space
  · simp [hs, readBack]
  · simp [hs, readBack, h]

theorem fragments_eq (text : List ℕ) (attr : Option String)
    (h : nbsp ∉ splitArray text (splitTypeOf attr)) :
    fragments text attr = splitArray text (splitTypeOf attr) := by
  have h1 : fragments text attr = ((splitText text attr).map Span.content).map readBack := by
    simp [fragments, List.map_map, Function.comp_def]
  rw [h1, splitText_contents, List.map_map]
  have h2 : ∀ item ∈ splitArray text (splitTypeOf attr),
      (readBack ∘ fun item => if item = space then nbsp else item) item = item := by
    intro item hi
    exact readBack_emit item (fun he => h (he ▸ hi))
  rw [List.map_congr_left h2, List.map_id']

theorem joinEmpty_splitChars (text : List ℕ) : joinEmpty (splitChars text) = text := by
  induction text with
  | nil => rfl
  | cons c s ih =>
    have : splitChars (c :: s) = [c] :: splitChars s := rfl
    rw [this, joinEmpty, ih]; rfl

theorem nbsp_not_mem_splitChars (text : List ℕ) : nbsp ∉ splitChars text := by
  intro h
  obtain ⟨c, -, hc⟩ := List.mem_map.1 h
  have h1 : [c].length = nbsp.length := by rw [hc]
  have h6 : nbsp.length = 6 := by decide
  rw [h6] at h1
  simp at h1

theorem splitText_length (text : List ℕ) (attr : Option String) :
    (splitText text attr).length = (splitArray text (splitTypeOf attr)).length := by
  simp [splitText]

theorem splitText_delay (text : List ℕ) (attr : Option String) (i : ℕ) (sp : Span)
    (h : (splitText text attr)[i]? = some sp) : sp.delayMs = i * 50 := by
  unfold splitText at h
  simp only [List.getElem?_map, Option.map_eq_some'] at h
  obtain ⟨p, hp, rfl⟩ := h
  have h2 : p.1 = i := by
    have h3 := hp
    simp only [List.enum, List.getElem?_enumFrom, Option.map_eq_some'] at h3
    obtain ⟨a, -, ha⟩ := h3
    rw [← ha]; simp
  simp [h2]

theorem splitArray_words (text : List ℕ) :
    splitArray text (splitTypeOf (some "words")) = splitOnUnit 32 text := by
  have h : splitTypeOf (some "words") = "words" := by decide
  rw [h]; simp [splitArray]

theorem splitArray_lines (text : List ℕ) :
    splitArray text (splitTypeOf (some "lines")) = splitOnUnit 10 text := by
  have h : splitTypeOf (some "lines") = "lines" := by decide
  rw [h]; simp [splitArray]

theorem splitArray_chars (text : List ℕ) (attr : Option String)
    (hw : splitTypeOf attr ≠ "words") (hl : splitTypeOf attr ≠ "lines") :
    splitArray text (splitTypeOf attr) = splitChars text := by
  simp [splitArray, hw, hl]

/-- C28 (as stated, refuted): in `words` mode the text `&nbsp;` gives the single fragment
`&nbsp;`, which read as a space reassembles to a space, not to the text. -/
theorem splitText_nbsp_counterexample :
    (splitText nbsp (some "words")).map Span.content = [nbsp] ∧
    joinWith 32 (fragments nbsp (some "words")) = space ∧
    joinWith 32 (fragments nbsp (some "words")) ≠ nbsp := by
  decide

/-- C28 (amended): in `chars` mode (any `data-split` value other than `words` and `lines`,
or none) the fragments of `splitText`, with `&nbsp;` read as a space, concatenate to the
text and there is one fragment per UTF-16 code unit; in `words` and `lines` mode they
reassemble to the text when joined with a space, respectively a newline, provided no word,
respectively line, of the text is the literal `&nbsp;`; in every mode fragment i carries the
animation delay i * 50 ms. -/
theorem splitText_reassembles (text : List ℕ) (attr : Option String) :
    (splitTypeOf attr ≠ "words" → splitTypeOf attr ≠ "lines" →
      joinEmpty (fragments text attr) = text ∧
      (splitText text attr).length = text.length) ∧
    (nbsp ∉ splitOnUnit 32 text → joinWith 32 (fragments text (some "words")) = text) ∧
    (nbsp ∉ splitOnUnit 10 text → joinWith 10 (fragments text (some "lines")) = text) ∧
    (∀ (i : ℕ) (sp : Span), (splitText text attr)[i]? = some sp → sp.delayMs = i * 50) := by
  refine ⟨?_, ?_, ?_, splitText_delay text attr⟩
  · intro hw hl
    have hc := splitArray_chars text attr hw hl
    constructor
    · rw [fragments_eq text attr (by rw [hc]; exact nbsp_not_mem_splitChars text), hc]
      exact joinEmpty_splitChars text
    · rw [splitText_length, hc]
      simp [splitChars]
  · intro h
    rw [fragments_eq text (some "words") (by rw [splitArray_words]; exact h),
      splitArray_words]
    exact joinWith_splitOnUnit 32 text
  · intro h
    rw [fragments_eq text (some "lines") (by rw [splitArray_lines]; exact h),
      splitArray_lines]
    exact joinWith_splitOnUnit 10 text

theorem splitText_reassembles_witness :
    joinWith 32 (fragments [104, 105, 32, 121, 111] (some "words"))
      = [104, 105, 32, 121, 111] ∧
    joinEmpty (fragments [104, 32, 105] none) = [104, 32, 105] :=
  ⟨(splitText_reassembles [104, 105, 32, 121, 111] none).2.1 (by decide),
   ((splitText_reassembles [104, 32, 105] none).1 (by decide) (by decide)).1⟩

end TextEffects
